import Mathlib

/-!
# Verification of the `deimoslang` semantic-analysis pass

Shallow embedding of `src/deimoslang/sem.py` of the SubataGod repository:
the symbol table (`Symbol`), the scope chain (`Scope`), and the
`Analyzer.sem_stmt` statement transformer, together with proofs about
desugaring, scope isolation, symbol-id generation and variable-lifetime
invariants.

Modelling conventions:
* The AST node types (`Stmt`, `Expression`, `Token`) come from the
  repository's parser/types modules, which are not among the analyzed
  sources; their shapes are reconstructed from the fields `sem.py` reads
  and constructs and from the specification's data model.  The opaque
  command payload of `CommandStmt` is reduced to the only field `sem.py`
  touches, its player selector (modelled as a `Nat`).
* Python's scope objects form a parent-linked chain; it is embedded as a
  `List Scope` whose head is the current scope.  All mutations in
  `sem.py` go through `self.scope`, i.e. the head of the chain.
* `SemError` exceptions are modelled with `Except String`; Python sets
  are modelled as duplicate-free lists built with `addSet`.
* Python's `None`, when stored in a statement field by the analyzer, is
  represented by the constructor `Stmt.noneStmt` (whose analysis, like
  `None`'s, falls into the unhandled-statement error branch).
* The unbounded recursion of `sem_stmt` is modelled with a fuel
  parameter (`.error "recursion limit"` when exhausted); theorems are
  conditioned on a successful run, so the limit never matters.
* The mutable `Symbol.defnode` back-reference (a cyclic pointer that the
  analysis logic itself never reads) is omitted.
* `Analyzer.gen_ids` is ghost instrumentation recording, in order, the
  ids handed out by `gen_sym_id`; no analyzer decision depends on it.
-/

namespace Deimos

inductive SymbolKind
  | block
  | var
  | label
deriving DecidableEq

structure Symbol where
  literal : String
  id : Nat
  kind : SymbolKind
deriving DecidableEq

inductive TokenKind
  | keyword_not
deriving DecidableEq

structure LineInfo where
  line : Int
  column : Int
  pos : Int
deriving DecidableEq

structure Token where
  kind : TokenKind
  literal : String
  line_info : LineInfo
deriving DecidableEq

/-- Expression nodes, as read and constructed by `sem.py`:
`IdentExpression`, `SymExpression`, `NumberExpression`, `ReadVarExpr`,
`GreaterExpression`, `SubExpression`, `UnaryExpression`. -/
inductive Expression
  | identE (ident : String)
  | symE (sym : Symbol)
  | number (num : Int)
  | readVar (expr : Expression)
  | greater (lhs rhs : Expression)
  | subE (lhs rhs : Expression)
  | unary (op : Token) (expr : Expression)
deriving DecidableEq

/-- Statement nodes, as matched by `Analyzer.sem_stmt`.  `BlockDefStmt`
and `TimesStmt` carry their body directly as the list of statements of
the `StmtList` the parser puts there (`sem.py` accesses it as
`stmt.body.stmts`). -/
inductive Stmt
  | blockDef (name : Expression) (body : List Stmt)
  | stmtList (stmts : List Stmt)
  | call (name : Expression)
  | command (player_selector : Nat)
  | ifS (expr : Expression) (branch_true branch_false : Stmt)
  | loop (body : Stmt)
  | whileS (expr : Expression) (body : Stmt)
  | untilS (expr : Expression) (body : Stmt)
  | untilRegion (expr : Expression) (body : Stmt)
  | times (num : Int) (body : List Stmt)
  | returnS
  | breakS
  | defVar (sym : Symbol)
  | writeVar (sym : Symbol) (expr : Expression)
  | killVar (sym : Symbol)
  | noneStmt

/-- Python set insertion (`set.add`): append unless already present. -/
def addSet {α : Type} [DecidableEq α] (x : α) (s : List α) : List α :=
  if x ∈ s then s else s ++ [x]

/-- One scope record (`Scope.__init__`).  The parent link is represented
by the position in the chain (`List Scope`, innermost first). -/
structure Scope where
  syms : List Symbol
  unique_player_selectors : List Nat
  active_vars : List Symbol
  cleaned_vars : List Symbol
  is_block : Bool
deriving DecidableEq

def Scope.newScope (is_block : Bool) : Scope :=
  { syms := [], unique_player_selectors := [], active_vars := [],
    cleaned_vars := [], is_block := is_block }

/-- Source `Scope.new_block`: a fresh hard-boundary child scope. -/
def Scope.new_block : Scope := Scope.newScope true

/-- Source `Scope.new_branch`: a fresh soft-boundary child scope that copies the
parent's active-variable list. -/
def Scope.new_branch (parent : Scope) : Scope :=
  { Scope.newScope false with active_vars := parent.active_vars }

/-- The reversed local search of `Scope.lookup_block_by_name`: most
recently declared block-kind symbol with the given literal. -/
def Scope.lookup_local_block (sc : Scope) (literal : String) : Option Symbol :=
  sc.syms.reverse.find? (fun sym => sym.kind == SymbolKind.block && sym.literal == literal)

/-- Source `Scope.lookup_block_by_name`, over the whole chain. -/
def lookup_block_by_name (literal : String) : List Scope → Except String Symbol
  | [] => .error ("Unable to find symbol in scope: " ++ literal)
  | sc :: rest =>
    match sc.lookup_local_block literal with
    | some sym => .ok sym
    | none => lookup_block_by_name literal rest

/-- Source `Scope.is_block_local_var`: walk upward; a scope's own symbols are
checked before its block flag stops the walk. -/
def is_block_local_var (sym : Symbol) : List Scope → Bool
  | [] => false
  | sc :: rest =>
    if sym ∈ sc.syms then true
    else if sc.is_block then false
    else is_block_local_var sym rest

/-- Source `Scope.put_sym` on the current (head) scope. -/
def put_sym (sym : Symbol) : List Scope → List Scope
  | [] => []
  | sc :: rest => { sc with syms := sc.syms ++ [sym] } :: rest

/-- Source `Scope.activate_var` on the current (head) scope. -/
def activate_var (sym : Symbol) : List Scope → Except String (List Scope)
  | [] => .error "no current scope"
  | sc :: rest =>
    if sym ∈ sc.active_vars then
      .error "Attempted to activate an already active variable"
    else
      .ok ({ sc with active_vars := sc.active_vars ++ [sym] } :: rest)

/-- Source `Scope.kill_var` on the current (head) scope. -/
def kill_var (sym : Symbol) : List Scope → Except String (List Scope)
  | [] => .error "no current scope"
  | sc :: rest =>
    if ¬ is_block_local_var sym (sc :: rest) then
      .error "Attempted to kill a variable that isn't local to the current block"
    else if sym ∉ sc.active_vars then
      .error "Attempted to kill an inactive variable"
    else
      .ok ({ sc with cleaned_vars := addSet sym sc.cleaned_vars,
                     active_vars := sc.active_vars.erase sym } :: rest)

/-- The `Analyzer`'s mutable state.  `gen_ids` is ghost instrumentation
(the trace of ids returned by `gen_sym_id`). -/
structure Analyzer where
  scope : List Scope
  next_sym_id : Nat
  block_defs : List Stmt
  block_nesting_level : Int
  loop_nesting_level : Int
  loop_nesting_stack : List Int
  gen_ids : List Nat

/-- Source `Analyzer.__init__`: root block scope, counters at zero. -/
def initAnalyzer : Analyzer :=
  { scope := [Scope.newScope true], next_sym_id := 0, block_defs := [],
    block_nesting_level := 0, loop_nesting_level := 0,
    loop_nesting_stack := [], gen_ids := [] }

def Analyzer.open_block (a : Analyzer) : Analyzer :=
  { a with scope := Scope.new_block :: a.scope,
           loop_nesting_stack := a.loop_nesting_level :: a.loop_nesting_stack,
           loop_nesting_level := 0,
           block_nesting_level := a.block_nesting_level + 1 }

def Analyzer.close_block (a : Analyzer) : Except String Analyzer :=
  match a.scope, a.loop_nesting_stack with
  | _ :: restScopes, lvl :: restStack =>
    .ok { a with scope := restScopes, loop_nesting_level := lvl,
                 loop_nesting_stack := restStack,
                 block_nesting_level := a.block_nesting_level - 1 }
  | _, _ => .error "close_block without matching open_block"

def Analyzer.open_loop (a : Analyzer) : Except String Analyzer :=
  match a.scope with
  | sc :: rest =>
    .ok { a with scope := Scope.new_branch sc :: sc :: rest,
                 loop_nesting_level := a.loop_nesting_level + 1 }
  | [] => .error "no current scope"

def Analyzer.close_loop (a : Analyzer) : Except String Analyzer :=
  match a.scope with
  | _ :: rest =>
    .ok { a with scope := rest, loop_nesting_level := a.loop_nesting_level - 1 }
  | [] => .error "no current scope"

/-- Source `Analyzer.gen_sym_id`: return the counter, then increment it. -/
def Analyzer.gen_sym_id (a : Analyzer) : Nat × Analyzer :=
  (a.next_sym_id,
   { a with next_sym_id := a.next_sym_id + 1,
            gen_ids := a.gen_ids ++ [a.next_sym_id] })

def Analyzer.gen_block_sym (a : Analyzer) (name : String) : Symbol × Analyzer :=
  let p := a.gen_sym_id
  let sym : Symbol := ⟨name, p.1, SymbolKind.block⟩
  (sym, { p.2 with scope := put_sym sym p.2.scope })

def Analyzer.gen_var_sym (a : Analyzer) (name : String) : Symbol × Analyzer :=
  let p := a.gen_sym_id
  let sym : Symbol := ⟨":" ++ name ++ ":", p.1, SymbolKind.var⟩
  (sym, { p.2 with scope := put_sym sym p.2.scope })

def Analyzer.gen_label_sym (a : Analyzer) (name : String) : Symbol × Analyzer :=
  let p := a.gen_sym_id
  let sym : Symbol := ⟨":" ++ name, p.1, SymbolKind.label⟩
  (sym, { p.2 with scope := put_sym sym p.2.scope })

/-- Source `Analyzer.def_var`: generate an anonymous variable symbol and
activate it in the current scope. -/
def Analyzer.def_var (a : Analyzer) : Except String (Symbol × Analyzer) :=
  let p := a.gen_var_sym "anonymous"
  match activate_var p.1 p.2.scope with
  | .ok sc => .ok (p.1, { p.2 with scope := sc })
  | .error err => .error err

/-- Source `Analyzer.mark_var_dead`. -/
def Analyzer.mark_var_dead (a : Analyzer) (sym : Symbol) : Except String Analyzer :=
  match kill_var sym a.scope with
  | .ok sc => .ok { a with scope := sc }
  | .error err => .error err

/-- The loop inside `Analyzer.gen_cleanup_all_vars`: kill each listed
variable in order, emitting a `KillVarStmt` for it. -/
def cleanupVars : List Symbol → Analyzer → Except String (List Stmt × Analyzer)
  | [], a => .ok ([], a)
  | v :: rest, a =>
    match a.mark_var_dead v with
    | .error err => .error err
    | .ok a' =>
      match cleanupVars rest a' with
      | .error err => .error err
      | .ok (stmts, a2) => .ok (Stmt.killVar v :: stmts, a2)

/-- Source `Analyzer.gen_cleanup_all_vars`: kill the current scope's active
variables in reverse activation order. -/
def Analyzer.gen_cleanup_all_vars (a : Analyzer) : Except String (Stmt × Analyzer) :=
  match a.scope with
  | [] => .error "no current scope"
  | sc :: _ =>
    match cleanupVars sc.active_vars.reverse a with
    | .error err => .error err
    | .ok (res, a') => .ok (Stmt.stmtList res, a')

/-- Source `Analyzer.sem_expr` is the identity (a pass-through extension point). -/
def sem_expr (expr : Expression) : Expression := expr

/-- The token `sem.py` fabricates for the negation in the until-loop
desugaring: `Token(TokenKind.keyword_not, "not", LineInfo(-1, -1, -1))`. -/
def notToken : Token := ⟨TokenKind.keyword_not, "not", ⟨-1, -1, -1⟩⟩

/-- Source `if semmed := ...: res.append(semmed)` — keep a produced statement,
drop an elided one. -/
def optCons (ox : Option Stmt) (rest : List Stmt) : List Stmt :=
  match ox with
  | some st => st :: rest
  | none => rest

/-- Source `Analyzer.sem_stmt`.  The fuel argument only bounds recursion depth;
every recursive call of the source decrements it. -/
def sem_stmt (fuel : Nat) (stmt : Stmt) (a : Analyzer) :
    Except String (Option Stmt × Analyzer) :=
  match stmt with
  | .blockDef name body =>
    match name with
    | .identE ident =>
      match fuel with
      | 0 => .error "recursion limit"
      | f + 1 =>
        let p := a.gen_block_sym ident
        let a2 := p.2.open_block
        match sem_stmt f (.stmtList (body ++ [.returnS])) a2 with
        | .error err => .error err
        | .ok (semBody, a3) =>
          match a3.close_block with
          | .error err => .error err
          | .ok a4 =>
            match semBody with
            | some (.stmtList rs) =>
              .ok (none, { a4 with
                block_defs := a4.block_defs ++ [Stmt.blockDef (.symE p.1) rs] })
            | _ => .error "internal: block body shape"
    | _ => .error "Only IdentExpression is allowed during block declaration"
  | .stmtList [] => .ok (some (.stmtList []), a)
  | .stmtList (x :: rest) =>
    match fuel with
    | 0 => .error "recursion limit"
    | f + 1 =>
      match sem_stmt f x a with
      | .error err => .error err
      | .ok (ox, a1) =>
        match sem_stmt f (.stmtList rest) a1 with
        | .error err => .error err
        | .ok (some (.stmtList rs), a2) =>
          .ok (some (.stmtList (optCons ox rs)), a2)
        | .ok _ => .error "internal: statement list shape"
  | .call name =>
    match name with
    | .identE ident =>
      match lookup_block_by_name ident a.scope with
      | .error err => .error err
      | .ok sym => .ok (some (.call (.symE sym)), a)
    | .symE sym => .ok (some (.call (.symE sym)), a)
    | _ => .error "Malformed call"
  | .command sel =>
    match a.scope with
    | [] => .error "no current scope"
    | sc :: rest =>
      .ok (some (.command sel),
           { a with scope :=
              { sc with unique_player_selectors :=
                  addSet sel sc.unique_player_selectors } :: rest })
  | .ifS e bt bf =>
    match fuel with
    | 0 => .error "recursion limit"
    | f + 1 =>
      let e' := sem_expr e
      match a.scope with
      | [] => .error "no current scope"
      | sc :: rest =>
        match sem_stmt f bt { a with scope := Scope.new_branch sc :: sc :: rest } with
        | .error err => .error err
        | .ok (obt, a1) =>
          match a1.scope with
          | [] => .error "no current scope"
          | _ :: rest1 =>
            match rest1 with
            | [] => .error "no current scope"
            | sc2 :: rest2 =>
              match sem_stmt f bf
                  { a1 with scope := Scope.new_branch sc2 :: sc2 :: rest2 } with
              | .error err => .error err
              | .ok (obf, a3) =>
                match a3.scope with
                | [] => .error "no current scope"
                | _ :: rest3 =>
                  .ok (some (.ifS e' (obt.getD .noneStmt) (obf.getD .noneStmt)),
                       { a3 with scope := rest3 })
  | .loop body =>
    match fuel with
    | 0 => .error "recursion limit"
    | f + 1 =>
      match a.open_loop with
      | .error err => .error err
      | .ok a1 =>
        match sem_stmt f body a1 with
        | .error err => .error err
        | .ok (ob, a2) =>
          match a2.close_loop with
          | .error err => .error err
          | .ok a3 => .ok (some (.loop (ob.getD .noneStmt)), a3)
  | .whileS e body =>
    match fuel with
    | 0 => .error "recursion limit"
    | f + 1 =>
      let e' := sem_expr e
      match a.open_loop with
      | .error err => .error err
      | .ok a1 =>
        match sem_stmt f body a1 with
        | .error err => .error err
        | .ok (ob, a2) =>
          match a2.close_loop with
          | .error err => .error err
          | .ok a3 => .ok (some (.whileS e' (ob.getD .noneStmt)), a3)
  | .untilS e body =>
    match fuel with
    | 0 => .error "recursion limit"
    | f + 1 =>
      match a.open_loop with
      | .error err => .error err
      | .ok a1 =>
        let e' := sem_expr e
        match sem_stmt f body a1 with
        | .error err => .error err
        | .ok (ob, a2) =>
          match a2.close_loop with
          | .error err => .error err
          | .ok a3 =>
            .ok (some (.ifS e' (.stmtList [])
                   (.stmtList [.untilRegion e'
                      (.whileS (.unary notToken e') (ob.getD .noneStmt))])),
                 a3)
  | .times num body =>
    match fuel with
    | 0 => .error "recursion limit"
    | f + 1 =>
      match a.def_var with
      | .error err => .error err
      | .ok (var_sym, a1) =>
        let cond := Expression.greater (.readVar (.symE var_sym)) (.number 0)
        let newBody := body ++
          [Stmt.writeVar var_sym (.subE (.readVar (.symE var_sym)) (.number 1))]
        match sem_stmt f (.whileS cond (.stmtList newBody)) a1 with
        | .error err => .error err
        | .ok (ow, a2) =>
          match a2.mark_var_dead var_sym with
          | .error err => .error err
          | .ok a3 =>
            .ok (some (.stmtList
                   [Stmt.defVar var_sym, Stmt.writeVar var_sym (.number num),
                    ow.getD .noneStmt, Stmt.killVar var_sym]),
                 a3)
  | .returnS =>
    if a.block_nesting_level ≤ 0 then
      .error "Return used outside of block scope"
    else
      match a.gen_cleanup_all_vars with
      | .error err => .error err
      | .ok (cleanup, a1) => .ok (some (.stmtList [cleanup, .returnS]), a1)
  | .breakS =>
    if a.loop_nesting_level ≤ 0 then
      .error "Break used outside of loop scope"
    else .ok (some .breakS, a)
  | .defVar sym => .ok (some (.defVar sym), a)
  | .writeVar sym e => .ok (some (.writeVar sym e), a)
  | .killVar sym => .ok (some (.killVar sym), a)
  | .untilRegion _ _ => .error "Unhandled statement type"
  | .noneStmt => .error "Unhandled statement type: None"

/-- Source `Analyzer.analyze_program`: the top-level loop over the program's
statements, with the same keep-or-drop behavior as the statement-list
case. -/
def analyze_program : Nat → List Stmt → Analyzer → Except String (List Stmt × Analyzer)
  | _, [], a => .ok ([], a)
  | 0, _ :: _, _ => .error "recursion limit"
  | fuel + 1, x :: rest, a =>
    match sem_stmt fuel x a with
    | .error err => .error err
    | .ok (ox, a1) =>
      match analyze_program fuel rest a1 with
      | .error err => .error err
      | .ok (rs, a2) => .ok (optCons ox rs, a2)

/-! ## Predicates used by the statements -/

/-- Whether an analysis step succeeded. -/
def isOk {α : Type} (e : Except String α) : Bool :=
  match e with
  | .ok _ => true
  | .error _ => false

/-- Ghost invariant on generated symbol ids: the trace of handed-out ids
is strictly increasing and bounded by the counter. -/
def IdsOk (a : Analyzer) : Prop :=
  a.gen_ids.Pairwise (· < ·) ∧ ∀ i ∈ a.gen_ids, i < a.next_sym_id

/-- Liveness invariant on a scope chain: every scope's active variables
are duplicate-free and block-local seen from that scope. -/
def ScopesOk : List Scope → Prop
  | [] => True
  | sc :: rest =>
    (sc.active_vars.Nodup ∧
      ∀ v ∈ sc.active_vars, is_block_local_var v (sc :: rest) = true)
    ∧ ScopesOk rest

/-- A scope's symbol list holds a routine (block-kind) symbol with the
given literal name. -/
def HasLocalMatch (syms : List Symbol) (lit : String) : Prop :=
  ∃ s ∈ syms, s.kind = SymbolKind.block ∧ s.literal = lit

mutual
/-- A routine-definition node occurs somewhere in the statement. -/
def hasBlockDef : Stmt → Bool
  | .blockDef _ _ => true
  | .stmtList l => hasBlockDefL l
  | .ifS _ bt bf => hasBlockDef bt || hasBlockDef bf
  | .loop b => hasBlockDef b
  | .whileS _ b => hasBlockDef b
  | .untilS _ b => hasBlockDef b
  | .untilRegion _ b => hasBlockDef b
  | .times _ l => hasBlockDefL l
  | _ => false

def hasBlockDefL : List Stmt → Bool
  | [] => false
  | x :: rest => hasBlockDef x || hasBlockDefL rest
end

/-! ## Helper lemmas about the scope operations -/

theorem isOk_iff {α : Type} (e : Except String α) :
    isOk e = true ↔ ∃ x, e = .ok x := by
  cases e <;> simp [isOk]

theorem is_block_local_var_congr {sc sc' : Scope} (t : List Scope)
    (hsyms : sc'.syms = sc.syms) (hblk : sc'.is_block = sc.is_block)
    (v : Symbol) :
    is_block_local_var v (sc' :: t) = is_block_local_var v (sc :: t) := by
  simp [is_block_local_var, hsyms, hblk]

theorem is_block_local_var_mono {sc : Scope} (t : List Scope)
    (l : List Symbol) (v : Symbol)
    (h : is_block_local_var v (sc :: t) = true) :
    is_block_local_var v ({ sc with syms := sc.syms ++ l } :: t) = true := by
  simp only [is_block_local_var] at h ⊢
  by_cases hv : v ∈ sc.syms
  · simp [hv]
  · simp only [hv, if_false] at h
    by_cases hb : sc.is_block
    · simp [hb] at h
    · simp [hv, hb] at h ⊢
      exact Or.inr h

theorem activate_var_ok {sym : Symbol} {sc : Scope} {t res : List Scope}
    (h : activate_var sym (sc :: t) = .ok res) :
    res = { sc with active_vars := sc.active_vars ++ [sym] } :: t ∧
      sym ∉ sc.active_vars := by
  by_cases hmem : sym ∈ sc.active_vars
  · simp [activate_var, hmem] at h
  · simp [activate_var, hmem] at h
    exact ⟨h.symm, hmem⟩

theorem kill_var_ok {sym : Symbol} {sc : Scope} {t res : List Scope}
    (h : kill_var sym (sc :: t) = .ok res) :
    res = { sc with cleaned_vars := addSet sym sc.cleaned_vars,
                    active_vars := sc.active_vars.erase sym } :: t ∧
      is_block_local_var sym (sc :: t) = true ∧ sym ∈ sc.active_vars := by
  by_cases hloc : is_block_local_var sym (sc :: t)
  · by_cases hmem : sym ∈ sc.active_vars
    · simp [kill_var, hloc, hmem] at h
      exact ⟨h.symm, hloc, hmem⟩
    · simp [kill_var, hloc, hmem] at h
  · simp [kill_var, hloc] at h

theorem kill_var_err_iff (sym : Symbol) (sc : Scope) (t : List Scope) :
    isOk (kill_var sym (sc :: t)) = false ↔
      (is_block_local_var sym (sc :: t) = false ∨ sym ∉ sc.active_vars) := by
  by_cases hloc : is_block_local_var sym (sc :: t)
  · by_cases hmem : sym ∈ sc.active_vars
    · simp [kill_var, hloc, hmem, isOk]
    · simp [kill_var, hloc, hmem, isOk]
  · simp at hloc
    simp [kill_var, hloc, isOk]

theorem activate_var_err_iff (sym : Symbol) (sc : Scope) (t : List Scope) :
    isOk (activate_var sym (sc :: t)) = false ↔ sym ∈ sc.active_vars := by
  by_cases hmem : sym ∈ sc.active_vars
  · simp [activate_var, hmem, isOk]
  · simp [activate_var, hmem, isOk]

theorem ScopesOk_put_sym {sc : Scope} {t : List Scope} (s : Symbol)
    (h : ScopesOk (sc :: t)) :
    ScopesOk ({ sc with syms := sc.syms ++ [s] } :: t) := by
  obtain ⟨⟨hnd, hloc⟩, ht⟩ := h
  exact ⟨⟨hnd, fun v hv => is_block_local_var_mono t [s] v (hloc v hv)⟩, ht⟩

theorem ScopesOk_kill {sym : Symbol} {sc : Scope} {t : List Scope}
    (h : ScopesOk (sc :: t)) :
    ScopesOk ({ sc with cleaned_vars := addSet sym sc.cleaned_vars,
                        active_vars := sc.active_vars.erase sym } :: t) := by
  obtain ⟨⟨hnd, hloc⟩, ht⟩ := h
  refine ⟨⟨hnd.erase sym, fun v hv => ?_⟩, ht⟩
  have hv' : v ∈ sc.active_vars := List.mem_of_mem_erase hv
  rw [is_block_local_var_congr t rfl rfl]
  exact hloc v hv'

theorem ScopesOk_new_branch {sc : Scope} {t : List Scope}
    (h : ScopesOk (sc :: t)) :
    ScopesOk (Scope.new_branch sc :: sc :: t) := by
  obtain ⟨⟨hnd, hloc⟩, ht⟩ := h
  refine ⟨⟨hnd, fun v hv => ?_⟩, ⟨hnd, hloc⟩, ht⟩
  simp only [Scope.new_branch, Scope.newScope] at hv
  have h2 := hloc v hv
  simp [is_block_local_var, Scope.new_branch, Scope.newScope] at h2 ⊢
  exact h2

theorem ScopesOk_new_block {t : List Scope} (h : ScopesOk t) :
    ScopesOk (Scope.new_block :: t) := by
  refine ⟨⟨?_, ?_⟩, h⟩
  · simp [Scope.new_block, Scope.newScope]
  · intro v hv
    simp [Scope.new_block, Scope.newScope] at hv

theorem ScopesOk_tail {x : Scope} {t : List Scope} (h : ScopesOk (x :: t)) :
    ScopesOk t := h.2

theorem ScopesOk_head_congr {sc sc' : Scope} {t : List Scope}
    (hsyms : sc'.syms = sc.syms) (hact : sc'.active_vars = sc.active_vars)
    (hblk : sc'.is_block = sc.is_block) (h : ScopesOk (sc :: t)) :
    ScopesOk (sc' :: t) := by
  obtain ⟨⟨hnd, hloc⟩, ht⟩ := h
  refine ⟨⟨hact ▸ hnd, fun v hv => ?_⟩, ht⟩
  rw [is_block_local_var_congr t hsyms hblk]
  exact hloc v (hact ▸ hv)

theorem ScopesOk_put_sym_chain (s : Symbol) {chain : List Scope}
    (h : ScopesOk chain) : ScopesOk (put_sym s chain) := by
  cases chain with
  | nil => exact h
  | cons sc t => exact ScopesOk_put_sym s h

theorem IdsOk_of_eq {a a' : Analyzer} (hg : a'.gen_ids = a.gen_ids)
    (hn : a'.next_sym_id = a.next_sym_id) (h : IdsOk a) : IdsOk a' := by
  obtain ⟨hp, hb⟩ := h
  exact ⟨hg ▸ hp, by rw [hg, hn]; exact hb⟩

theorem IdsOk_gen_sym_id {a : Analyzer} (h : IdsOk a) : IdsOk a.gen_sym_id.2 := by
  obtain ⟨hp, hb⟩ := h
  constructor
  · simp only [Analyzer.gen_sym_id]
    rw [List.pairwise_append]
    refine ⟨hp, by simp, ?_⟩
    intro x hx y hy
    simp only [List.mem_singleton] at hy
    subst hy
    exact hb x hx
  · intro i hi
    simp only [Analyzer.gen_sym_id] at hi ⊢
    rcases List.mem_append.mp hi with h1 | h1
    · exact Nat.lt_succ_of_lt (hb i h1)
    · simp only [List.mem_singleton] at h1
      subst h1
      exact Nat.lt_succ_self _

theorem close_block_ok {a a' : Analyzer} (h : a.close_block = .ok a') :
    ∃ x restS lvl restL, a.scope = x :: restS ∧
      a.loop_nesting_stack = lvl :: restL ∧
      a' = { a with scope := restS, loop_nesting_level := lvl,
                    loop_nesting_stack := restL,
                    block_nesting_level := a.block_nesting_level - 1 } := by
  unfold Analyzer.close_block at h
  cases hs : a.scope with
  | nil => rw [hs] at h; simp at h
  | cons x restS =>
    cases hl : a.loop_nesting_stack with
    | nil => rw [hs, hl] at h; simp at h
    | cons lvl restL =>
      rw [hs, hl] at h
      simp only [Except.ok.injEq] at h
      exact ⟨x, restS, lvl, restL, rfl, rfl, h.symm⟩

theorem open_loop_ok {a a1 : Analyzer} (h : a.open_loop = .ok a1) :
    ∃ sc t, a.scope = sc :: t ∧
      a1 = { a with scope := Scope.new_branch sc :: sc :: t,
                    loop_nesting_level := a.loop_nesting_level + 1 } := by
  unfold Analyzer.open_loop at h
  cases hs : a.scope with
  | nil => rw [hs] at h; simp at h
  | cons sc t =>
    rw [hs] at h
    simp only [Except.ok.injEq] at h
    exact ⟨sc, t, rfl, h.symm⟩

theorem close_loop_ok {a a1 : Analyzer} (h : a.close_loop = .ok a1) :
    ∃ x t, a.scope = x :: t ∧
      a1 = { a with scope := t,
                    loop_nesting_level := a.loop_nesting_level - 1 } := by
  unfold Analyzer.close_loop at h
  cases hs : a.scope with
  | nil => rw [hs] at h; simp at h
  | cons x t =>
    rw [hs] at h
    simp only [Except.ok.injEq] at h
    exact ⟨x, t, rfl, h.symm⟩

theorem mark_var_dead_ok {a a1 : Analyzer} {v : Symbol}
    (h : a.mark_var_dead v = .ok a1) :
    ∃ sc t, a.scope = sc :: t ∧
      is_block_local_var v (sc :: t) = true ∧ v ∈ sc.active_vars ∧
      a1 = { a with scope :=
        { sc with cleaned_vars := addSet v sc.cleaned_vars,
                  active_vars := sc.active_vars.erase v } :: t } := by
  unfold Analyzer.mark_var_dead at h
  cases hs : a.scope with
  | nil => rw [hs] at h; simp [kill_var] at h
  | cons sc t =>
    rw [hs] at h
    cases hk : kill_var v (sc :: t) with
    | error e => rw [hk] at h; simp at h
    | ok res =>
      rw [hk] at h
      simp only [Except.ok.injEq] at h
      obtain ⟨hres, hloc, hmem⟩ := kill_var_ok hk
      subst hres
      exact ⟨sc, t, rfl, hloc, hmem, h.symm⟩

theorem def_var_ok {a : Analyzer} {v : Symbol} {a1 : Analyzer}
    (h : a.def_var = .ok (v, a1)) :
    ∃ sc t, a.scope = sc :: t ∧
      v = ⟨":anonymous:", a.next_sym_id, SymbolKind.var⟩ ∧
      v ∉ sc.active_vars ∧
      a1 = { a with
             scope := { sc with
                        syms := sc.syms ++ [v],
                        active_vars := sc.active_vars ++ [v] } :: t,
             next_sym_id := a.next_sym_id + 1,
             gen_ids := a.gen_ids ++ [a.next_sym_id] } := by
  unfold Analyzer.def_var Analyzer.gen_var_sym Analyzer.gen_sym_id at h
  cases hs : a.scope with
  | nil => rw [hs] at h; simp only [put_sym, activate_var] at h; simp at h
  | cons sc t =>
    rw [hs] at h
    simp only [put_sym] at h
    rw [show ":" ++ "anonymous" ++ ":" = ":anonymous:" from rfl] at h
    by_cases hmem :
        (⟨":anonymous:", a.next_sym_id, SymbolKind.var⟩ : Symbol) ∈ sc.active_vars
    · simp [activate_var, hmem] at h
    · simp only [activate_var, if_neg hmem] at h
      rw [Except.ok.injEq, Prod.mk.injEq] at h
      obtain ⟨hv, ha⟩ := h
      subst hv
      refine ⟨sc, t, rfl, rfl, hmem, ?_⟩
      rw [← ha]

theorem ScopesOk_def_var {a : Analyzer} {v : Symbol} {a1 : Analyzer}
    (h : a.def_var = .ok (v, a1)) (hok : ScopesOk a.scope) :
    ScopesOk a1.scope := by
  obtain ⟨sc, t, hs, _, hmem, ha1⟩ := def_var_ok h
  rw [hs] at hok
  obtain ⟨⟨hnd, hloc⟩, ht⟩ := hok
  subst ha1
  refine ⟨⟨?_, ?_⟩, ht⟩
  · simp only []
    rw [List.nodup_append]
    exact ⟨hnd, List.nodup_singleton v, by simpa using hmem⟩
  · intro w hw
    simp only [List.mem_append, List.mem_singleton] at hw
    rcases hw with hw | hw
    · exact is_block_local_var_mono t [v] w (hloc w hw)
    · subst hw
      simp [is_block_local_var]

theorem cleanupVars_ScopesOk :
    ∀ (vs : List Symbol) (a : Analyzer) (res : List Stmt) (a' : Analyzer),
      cleanupVars vs a = .ok (res, a') → ScopesOk a.scope → ScopesOk a'.scope := by
  intro vs
  induction vs with
  | nil =>
    intro a res a' h hok
    simp only [cleanupVars, Except.ok.injEq, Prod.mk.injEq] at h
    rw [← h.2]
    exact hok
  | cons v rest ihv =>
    intro a res a' h hok
    simp only [cleanupVars] at h
    cases hm : a.mark_var_dead v with
    | error e => rw [hm] at h; simp at h
    | ok a2 =>
      rw [hm] at h
      dsimp only at h
      have hok2 : ScopesOk a2.scope := by
        obtain ⟨sc, t, hs, hloc, hmem, ha2⟩ := mark_var_dead_ok hm
        subst ha2
        simp only []
        rw [hs] at hok
        exact ScopesOk_kill hok
      cases hc : cleanupVars rest a2 with
      | error e => rw [hc] at h; simp at h
      | ok p =>
        obtain ⟨stmts, a3⟩ := p
        rw [hc] at h
        simp at h
        rw [← h.2]
        exact ihv a2 stmts a3 hc hok2

theorem cleanupVars_spec :
    ∀ (vs : List Symbol) (a : Analyzer) (res : List Stmt) (a' : Analyzer)
      (sc : Scope) (t : List Scope),
      a.scope = sc :: t → cleanupVars vs a = .ok (res, a') →
      res = vs.map Stmt.killVar ∧
      (∃ sc', a'.scope = sc' :: t ∧ sc'.syms = sc.syms ∧
        sc'.is_block = sc.is_block ∧
        sc'.active_vars.length + vs.length = sc.active_vars.length) ∧
      a'.next_sym_id = a.next_sym_id ∧ a'.gen_ids = a.gen_ids ∧
      a'.block_defs = a.block_defs ∧
      a'.block_nesting_level = a.block_nesting_level ∧
      a'.loop_nesting_level = a.loop_nesting_level ∧
      a'.loop_nesting_stack = a.loop_nesting_stack := by
  intro vs
  induction vs with
  | nil =>
    intro a res a' sc t hs h
    simp only [cleanupVars, Except.ok.injEq, Prod.mk.injEq] at h
    obtain ⟨h1, h2⟩ := h
    subst h2
    exact ⟨h1.symm, ⟨sc, hs, rfl, rfl, by simp⟩, rfl, rfl, rfl, rfl, rfl, rfl⟩
  | cons v rest ihv =>
    intro a res a' sc t hs h
    simp only [cleanupVars] at h
    cases hm : a.mark_var_dead v with
    | error e => rw [hm] at h; simp at h
    | ok a2 =>
      rw [hm] at h
      dsimp only at h
      obtain ⟨sc0, t0, hs0, hloc, hmem, ha2⟩ := mark_var_dead_ok hm
      rw [hs] at hs0
      injection hs0 with hsc0 ht0
      subst hsc0
      subst ht0
      cases hc : cleanupVars rest a2 with
      | error e => rw [hc] at h; simp at h
      | ok p =>
        obtain ⟨stmts, a3⟩ := p
        rw [hc] at h
        simp at h
        obtain ⟨hres, ha'⟩ := h
        subst ha'
        subst ha2
        have hsc2 : ({ a with scope :=
            { sc with cleaned_vars := addSet v sc.cleaned_vars,
                      active_vars := sc.active_vars.erase v } :: t } :
            Analyzer).scope =
            { sc with cleaned_vars := addSet v sc.cleaned_vars,
                      active_vars := sc.active_vars.erase v } :: t := rfl
        obtain ⟨hr, ⟨sc', hsc', hsyms', hblk', hlen'⟩, hn, hg, hbd, hbl, hll, hls⟩ :=
          ihv _ stmts a3 _ t hsc2 hc
        have hpos : 0 < sc.active_vars.length :=
          List.length_pos.mpr (List.ne_nil_of_mem hmem)
        have herase := List.length_erase_of_mem hmem
        refine ⟨?_, ⟨sc', hsc', by simpa using hsyms', by simpa using hblk', ?_⟩,
          by simpa using hn, by simpa using hg, by simpa using hbd,
          by simpa using hbl, by simpa using hll, by simpa using hls⟩
        · rw [← hres, hr]
          simp
        · dsimp only at hlen'
          rw [herase] at hlen'
          simp only [List.length_cons]
          omega

theorem cleanupVars_ok :
    ∀ (vs : List Symbol) (a : Analyzer) (sc : Scope) (t : List Scope),
      a.scope = sc :: t → vs.Nodup →
      (∀ v ∈ vs, v ∈ sc.active_vars) →
      (∀ v ∈ vs, is_block_local_var v (sc :: t) = true) →
      ∃ res a', cleanupVars vs a = .ok (res, a') := by
  intro vs
  induction vs with
  | nil =>
    intro a sc t _ _ _ _
    exact ⟨[], a, rfl⟩
  | cons v rest ihv =>
    intro a sc t hs hnd hmem hloc
    have hv_mem : v ∈ sc.active_vars := hmem v (List.mem_cons_self v rest)
    have hv_loc : is_block_local_var v (sc :: t) = true :=
      hloc v (List.mem_cons_self v rest)
    have hnd' := List.nodup_cons.mp hnd
    have hkill : kill_var v (sc :: t) =
        .ok ({ sc with cleaned_vars := addSet v sc.cleaned_vars,
                       active_vars := sc.active_vars.erase v } :: t) := by
      simp [kill_var, hv_loc, hv_mem]
    have hmvd : a.mark_var_dead v =
        .ok { a with scope :=
          { sc with cleaned_vars := addSet v sc.cleaned_vars,
                    active_vars := sc.active_vars.erase v } :: t } := by
      unfold Analyzer.mark_var_dead
      rw [hs, hkill]
    obtain ⟨res, a', hres⟩ := ihv
      { a with scope :=
          { sc with cleaned_vars := addSet v sc.cleaned_vars,
                    active_vars := sc.active_vars.erase v } :: t }
      { sc with cleaned_vars := addSet v sc.cleaned_vars,
                active_vars := sc.active_vars.erase v }
      t rfl hnd'.2
      (by
        intro w hw
        dsimp only
        have hwv : w ≠ v := by
          intro heq
          exact hnd'.1 (heq ▸ hw)
        exact (List.mem_erase_of_ne hwv).mpr (hmem w (List.mem_cons_of_mem v hw)))
      (by
        intro w hw
        rw [is_block_local_var_congr t rfl rfl]
        exact hloc w (List.mem_cons_of_mem v hw))
    refine ⟨Stmt.killVar v :: res, a', ?_⟩
    simp only [cleanupVars]
    rw [hmvd]
    dsimp only
    rw [hres]

theorem gen_cleanup_all_vars_total {a : Analyzer} {sc : Scope} {t : List Scope}
    (hs : a.scope = sc :: t) (hok : ScopesOk (sc :: t)) :
    ∃ res a', a.gen_cleanup_all_vars = .ok (res, a') := by
  obtain ⟨⟨hnd, hloc⟩, _⟩ := hok
  obtain ⟨res, a', hres⟩ := cleanupVars_ok sc.active_vars.reverse a sc t hs
    (List.nodup_reverse.mpr hnd)
    (fun v hv => List.mem_reverse.mp hv)
    (fun v hv => hloc v (List.mem_reverse.mp hv))
  refine ⟨.stmtList res, a', ?_⟩
  unfold Analyzer.gen_cleanup_all_vars
  rw [hs]
  dsimp only
  rw [hres]

theorem gen_cleanup_all_vars_ok {a : Analyzer} {cl : Stmt} {a1 : Analyzer}
    (h : a.gen_cleanup_all_vars = .ok (cl, a1)) :
    ∃ sc t res, a.scope = sc :: t ∧
      cleanupVars sc.active_vars.reverse a = .ok (res, a1) ∧
      cl = .stmtList res := by
  unfold Analyzer.gen_cleanup_all_vars at h
  cases hs : a.scope with
  | nil => rw [hs] at h; simp at h
  | cons sc t =>
    rw [hs] at h
    dsimp only at h
    cases hc : cleanupVars sc.active_vars.reverse a with
    | error e => rw [hc] at h; simp at h
    | ok p =>
      obtain ⟨res, a2⟩ := p
      rw [hc] at h
      simp only [Except.ok.injEq, Prod.mk.injEq] at h
      exact ⟨sc, t, res, rfl, h.2 ▸ hc, h.1.symm⟩

theorem gen_block_sym_spec (a : Analyzer) (name : String) :
    a.gen_block_sym name =
      (⟨name, a.next_sym_id, SymbolKind.block⟩,
       { a with scope := put_sym ⟨name, a.next_sym_id, SymbolKind.block⟩ a.scope,
                next_sym_id := a.next_sym_id + 1,
                gen_ids := a.gen_ids ++ [a.next_sym_id] }) := rfl

theorem sem_stmt_inv :
    ∀ (fuel : Nat) (st : Stmt) (a : Analyzer) (r : Option Stmt) (a' : Analyzer),
      sem_stmt fuel st a = .ok (r, a') →
      (∀ sc t, a.scope = sc :: t → ∃ sc', a'.scope = sc' :: t) ∧
      (IdsOk a → IdsOk a') ∧
      (ScopesOk a.scope → ScopesOk a'.scope) := by
  intro fuel
  induction fuel using Nat.strong_induction_on with
  | _ fuel ih =>
  intro st a r a' h
  cases st with
  | blockDef name body =>
    cases name with
    | identE ident =>
      cases fuel with
      | zero => simp [sem_stmt] at h
      | succ f =>
        simp only [sem_stmt] at h
        cases hbody : sem_stmt f (.stmtList (body ++ [.returnS]))
            ((a.gen_block_sym ident).2.open_block) with
        | error e => rw [hbody] at h; simp at h
        | ok p =>
          obtain ⟨semBody, a3⟩ := p
          rw [hbody] at h
          dsimp only at h
          cases hcb : a3.close_block with
          | error e => rw [hcb] at h; simp at h
          | ok a4 =>
            rw [hcb] at h
            dsimp only at h
            rcases semBody with _ | sb
            · simp at h
            · cases sb <;> try simp at h
              case stmtList rs =>
                obtain ⟨hr, ha⟩ := h
                rw [← ha]
                have ihb := ih f (Nat.lt_succ_self f) _ _ _ _ hbody
                obtain ⟨x4, restS, lvl, restL, hs4, hl4, ha4⟩ := close_block_ok hcb
                have hA2s : ((a.gen_block_sym ident).2.open_block).scope =
                    Scope.new_block ::
                      put_sym ⟨ident, a.next_sym_id, SymbolKind.block⟩ a.scope := rfl
                refine ⟨?_, ?_, ?_⟩
                · intro sc0 t0 hsc0
                  have hput : put_sym ⟨ident, a.next_sym_id, SymbolKind.block⟩ a.scope =
                      { sc0 with syms := sc0.syms ++
                        [⟨ident, a.next_sym_id, SymbolKind.block⟩] } :: t0 := by
                    rw [hsc0]
                    rfl
                  obtain ⟨y, hy⟩ := ihb.1 Scope.new_block
                    ({ sc0 with syms := sc0.syms ++
                        [⟨ident, a.next_sym_id, SymbolKind.block⟩] } :: t0)
                    (by rw [hA2s, hput])
                  rw [hy] at hs4
                  injection hs4 with e1 e2
                  refine ⟨{ sc0 with syms := sc0.syms ++
                      [⟨ident, a.next_sym_id, SymbolKind.block⟩] }, ?_⟩
                  rw [ha4]
                  dsimp only
                  rw [← e2]
                · intro hids
                  have h1 : IdsOk ((a.gen_block_sym ident).2.open_block) :=
                    IdsOk_of_eq rfl rfl (IdsOk_gen_sym_id hids)
                  have h2 := ihb.2.1 h1
                  rw [ha4]
                  exact IdsOk_of_eq rfl rfl h2
                · intro hok
                  have h1 : ScopesOk ((a.gen_block_sym ident).2.open_block).scope := by
                    rw [hA2s]
                    exact ScopesOk_new_block (ScopesOk_put_sym_chain _ hok)
                  have h2 := ihb.2.2 h1
                  rw [hs4] at h2
                  rw [ha4]
                  exact ScopesOk_tail h2
    | symE sym => simp [sem_stmt] at h
    | number n => simp [sem_stmt] at h
    | readVar e2 => simp [sem_stmt] at h
    | greater l r2 => simp [sem_stmt] at h
    | subE l r2 => simp [sem_stmt] at h
    | unary op e2 => simp [sem_stmt] at h
  | stmtList stmts =>
    cases stmts with
    | nil =>
      simp only [sem_stmt, Except.ok.injEq, Prod.mk.injEq] at h
      rw [← h.2]
      exact ⟨fun sc t hsc => ⟨sc, hsc⟩, id, id⟩
    | cons x rest =>
      cases fuel with
      | zero => simp [sem_stmt] at h
      | succ f =>
        simp only [sem_stmt] at h
        cases h1 : sem_stmt f x a with
        | error e => rw [h1] at h; simp at h
        | ok p1 =>
          obtain ⟨ox, a1⟩ := p1
          rw [h1] at h
          dsimp only at h
          cases h2 : sem_stmt f (.stmtList rest) a1 with
          | error e => rw [h2] at h; simp at h
          | ok p2 =>
            obtain ⟨or2, a2⟩ := p2
            rw [h2] at h
            have ihx := ih f (Nat.lt_succ_self f) x a ox a1 h1
            have ihr := ih f (Nat.lt_succ_self f) (.stmtList rest) a1 or2 a2 h2
            rcases or2 with _ | st2
            · simp at h
            · cases st2 <;> try simp at h
              case stmtList rs =>
                obtain ⟨hr, ha⟩ := h
                rw [← ha]
                refine ⟨?_, fun hids => ihr.2.1 (ihx.2.1 hids),
                  fun hok => ihr.2.2 (ihx.2.2 hok)⟩
                intro sc t hsc
                obtain ⟨sc1, hsc1⟩ := ihx.1 sc t hsc
                exact ihr.1 sc1 t hsc1
  | call name =>
    cases name with
    | identE ident =>
      simp only [sem_stmt] at h
      cases hl : lookup_block_by_name ident a.scope with
      | error e => rw [hl] at h; simp at h
      | ok sym =>
        rw [hl] at h
        simp only [Except.ok.injEq, Prod.mk.injEq] at h
        rw [← h.2]
        exact ⟨fun sc t hsc => ⟨sc, hsc⟩, id, id⟩
    | symE sym =>
      simp only [sem_stmt, Except.ok.injEq, Prod.mk.injEq] at h
      rw [← h.2]
      exact ⟨fun sc t hsc => ⟨sc, hsc⟩, id, id⟩
    | number n => simp [sem_stmt] at h
    | readVar e2 => simp [sem_stmt] at h
    | greater l r2 => simp [sem_stmt] at h
    | subE l r2 => simp [sem_stmt] at h
    | unary op e2 => simp [sem_stmt] at h
  | command sel =>
    simp only [sem_stmt] at h
    cases hs : a.scope with
    | nil => rw [hs] at h; simp at h
    | cons sc rest =>
      rw [hs] at h
      simp only [Except.ok.injEq, Prod.mk.injEq] at h
      rw [← h.2]
      refine ⟨?_, fun hids => IdsOk_of_eq rfl rfl hids, ?_⟩
      · intro sc0 t0 hsc0
        injection hsc0 with e1 e2
        subst e1; subst e2
        exact ⟨_, rfl⟩
      · intro hok
        exact ScopesOk_head_congr rfl rfl rfl hok
  | ifS e bt bf =>
    cases fuel with
    | zero => simp [sem_stmt] at h
    | succ f =>
      simp only [sem_stmt] at h
      cases hsa : a.scope with
      | nil => rw [hsa] at h; simp at h
      | cons sc rest =>
        rw [hsa] at h
        dsimp only at h
        cases hb1 : sem_stmt f bt
            { a with scope := Scope.new_branch sc :: sc :: rest } with
        | error e2 => rw [hb1] at h; simp at h
        | ok p1 =>
          obtain ⟨obt, a1⟩ := p1
          rw [hb1] at h
          dsimp only at h
          have ihb1 := ih f (Nat.lt_succ_self f) bt _ obt a1 hb1
          obtain ⟨x1, hx1⟩ := ihb1.1 (Scope.new_branch sc) (sc :: rest) rfl
          rw [hx1] at h
          dsimp only at h
          cases hb2 : sem_stmt f bf
              { a1 with scope := Scope.new_branch sc :: sc :: rest } with
          | error e2 => rw [hb2] at h; simp at h
          | ok p2 =>
            obtain ⟨obf, a3⟩ := p2
            rw [hb2] at h
            dsimp only at h
            have ihb2 := ih f (Nat.lt_succ_self f) bf _ obf a3 hb2
            obtain ⟨x3, hx3⟩ := ihb2.1 (Scope.new_branch sc) (sc :: rest) rfl
            rw [hx3] at h
            dsimp only at h
            simp only [Except.ok.injEq, Prod.mk.injEq] at h
            rw [← h.2]
            refine ⟨?_, ?_, ?_⟩
            · intro sc0 t0 hsc0
              injection hsc0 with e3 e4
              subst e3; subst e4
              exact ⟨sc, rfl⟩
            · intro hids
              have h1 : IdsOk { a with scope := Scope.new_branch sc :: sc :: rest } :=
                IdsOk_of_eq rfl rfl hids
              have h2 := ihb1.2.1 h1
              have h3 : IdsOk { a1 with scope := Scope.new_branch sc :: sc :: rest } :=
                IdsOk_of_eq rfl rfl h2
              have h4 := ihb2.2.1 h3
              exact IdsOk_of_eq rfl rfl h4
            · intro hok
              have h1 : ScopesOk
                  ({ a with scope := Scope.new_branch sc :: sc :: rest }).scope := by
                dsimp only
                exact ScopesOk_new_branch hok
              have h2 := ihb1.2.2 h1
              rw [hx1] at h2
              have h2t := ScopesOk_tail h2
              have h3 : ScopesOk
                  ({ a1 with scope := Scope.new_branch sc :: sc :: rest }).scope := by
                dsimp only
                exact ScopesOk_new_branch h2t
              have h4 := ihb2.2.2 h3
              rw [hx3] at h4
              exact ScopesOk_tail h4
  | loop body =>
    cases fuel with
    | zero => simp [sem_stmt] at h
    | succ f =>
      simp only [sem_stmt] at h
      cases ho : a.open_loop with
      | error e => rw [ho] at h; simp at h
      | ok a1 =>
        rw [ho] at h
        dsimp only at h
        cases hb : sem_stmt f body a1 with
        | error e => rw [hb] at h; simp at h
        | ok p =>
          obtain ⟨ob, a2⟩ := p
          rw [hb] at h
          dsimp only at h
          cases hc : a2.close_loop with
          | error e => rw [hc] at h; simp at h
          | ok a3 =>
            rw [hc] at h
            simp only [Except.ok.injEq, Prod.mk.injEq] at h
            rw [← h.2]
            obtain ⟨sc, t, hs, ha1⟩ := open_loop_ok ho
            have ihb := ih f (Nat.lt_succ_self f) body a1 ob a2 hb
            obtain ⟨x2, t2, hs2, ha3⟩ := close_loop_ok hc
            have ha1s : a1.scope = Scope.new_branch sc :: sc :: t := by rw [ha1]
            obtain ⟨y, hy⟩ := ihb.1 _ _ ha1s
            rw [hy] at hs2
            injection hs2 with e1 e2
            have ha3s : a3.scope = sc :: t := by rw [ha3]; dsimp only; rw [← e2]
            refine ⟨?_, ?_, ?_⟩
            · intro sc0 t0 hsc0
              rw [hs] at hsc0
              injection hsc0 with e3 e4
              subst e3; subst e4
              exact ⟨sc, ha3s⟩
            · intro hids
              have hids1 : IdsOk a1 := by rw [ha1]; exact IdsOk_of_eq rfl rfl hids
              have hids2 := ihb.2.1 hids1
              rw [ha3]
              exact IdsOk_of_eq rfl rfl hids2
            · intro hok
              rw [hs] at hok
              have hok1 : ScopesOk a1.scope := by
                rw [ha1s]
                exact ScopesOk_new_branch hok
              have hok2 := ihb.2.2 hok1
              rw [hy] at hok2
              rw [ha3s]
              exact ScopesOk_tail hok2
  | whileS e body =>
    cases fuel with
    | zero => simp [sem_stmt] at h
    | succ f =>
      simp only [sem_stmt] at h
      cases ho : a.open_loop with
      | error e => rw [ho] at h; simp at h
      | ok a1 =>
        rw [ho] at h
        dsimp only at h
        cases hb : sem_stmt f body a1 with
        | error e => rw [hb] at h; simp at h
        | ok p =>
          obtain ⟨ob, a2⟩ := p
          rw [hb] at h
          dsimp only at h
          cases hc : a2.close_loop with
          | error e => rw [hc] at h; simp at h
          | ok a3 =>
            rw [hc] at h
            simp only [Except.ok.injEq, Prod.mk.injEq] at h
            rw [← h.2]
            obtain ⟨sc, t, hs, ha1⟩ := open_loop_ok ho
            have ihb := ih f (Nat.lt_succ_self f) body a1 ob a2 hb
            obtain ⟨x2, t2, hs2, ha3⟩ := close_loop_ok hc
            have ha1s : a1.scope = Scope.new_branch sc :: sc :: t := by rw [ha1]
            obtain ⟨y, hy⟩ := ihb.1 _ _ ha1s
            rw [hy] at hs2
            injection hs2 with e1 e2
            have ha3s : a3.scope = sc :: t := by rw [ha3]; dsimp only; rw [← e2]
            refine ⟨?_, ?_, ?_⟩
            · intro sc0 t0 hsc0
              rw [hs] at hsc0
              injection hsc0 with e3 e4
              subst e3; subst e4
              exact ⟨sc, ha3s⟩
            · intro hids
              have hids1 : IdsOk a1 := by rw [ha1]; exact IdsOk_of_eq rfl rfl hids
              have hids2 := ihb.2.1 hids1
              rw [ha3]
              exact IdsOk_of_eq rfl rfl hids2
            · intro hok
              rw [hs] at hok
              have hok1 : ScopesOk a1.scope := by
                rw [ha1s]
                exact ScopesOk_new_branch hok
              have hok2 := ihb.2.2 hok1
              rw [hy] at hok2
              rw [ha3s]
              exact ScopesOk_tail hok2
  | untilS e body =>
    cases fuel with
    | zero => simp [sem_stmt] at h
    | succ f =>
      simp only [sem_stmt] at h
      cases ho : a.open_loop with
      | error e => rw [ho] at h; simp at h
      | ok a1 =>
        rw [ho] at h
        dsimp only at h
        cases hb : sem_stmt f body a1 with
        | error e => rw [hb] at h; simp at h
        | ok p =>
          obtain ⟨ob, a2⟩ := p
          rw [hb] at h
          dsimp only at h
          cases hc : a2.close_loop with
          | error e => rw [hc] at h; simp at h
          | ok a3 =>
            rw [hc] at h
            simp only [Except.ok.injEq, Prod.mk.injEq] at h
            rw [← h.2]
            obtain ⟨sc, t, hs, ha1⟩ := open_loop_ok ho
            have ihb := ih f (Nat.lt_succ_self f) body a1 ob a2 hb
            obtain ⟨x2, t2, hs2, ha3⟩ := close_loop_ok hc
            have ha1s : a1.scope = Scope.new_branch sc :: sc :: t := by rw [ha1]
            obtain ⟨y, hy⟩ := ihb.1 _ _ ha1s
            rw [hy] at hs2
            injection hs2 with e1 e2
            have ha3s : a3.scope = sc :: t := by rw [ha3]; dsimp only; rw [← e2]
            refine ⟨?_, ?_, ?_⟩
            · intro sc0 t0 hsc0
              rw [hs] at hsc0
              injection hsc0 with e3 e4
              subst e3; subst e4
              exact ⟨sc, ha3s⟩
            · intro hids
              have hids1 : IdsOk a1 := by rw [ha1]; exact IdsOk_of_eq rfl rfl hids
              have hids2 := ihb.2.1 hids1
              rw [ha3]
              exact IdsOk_of_eq rfl rfl hids2
            · intro hok
              rw [hs] at hok
              have hok1 : ScopesOk a1.scope := by
                rw [ha1s]
                exact ScopesOk_new_branch hok
              have hok2 := ihb.2.2 hok1
              rw [hy] at hok2
              rw [ha3s]
              exact ScopesOk_tail hok2
  | untilRegion e body => simp [sem_stmt] at h
  | times num body =>
    cases fuel with
    | zero => simp [sem_stmt] at h
    | succ f =>
      simp only [sem_stmt] at h
      cases hd : a.def_var with
      | error e => rw [hd] at h; simp at h
      | ok p =>
        obtain ⟨vsym, a1⟩ := p
        rw [hd] at h
        dsimp only at h
        cases hw : sem_stmt f
            (.whileS (.greater (.readVar (.symE vsym)) (.number 0))
              (.stmtList (body ++
                [.writeVar vsym (.subE (.readVar (.symE vsym)) (.number 1))]))) a1 with
        | error e => rw [hw] at h; simp at h
        | ok q =>
          obtain ⟨ow, a2⟩ := q
          rw [hw] at h
          dsimp only at h
          cases hm : a2.mark_var_dead vsym with
          | error e => rw [hm] at h; simp at h
          | ok a3 =>
            rw [hm] at h
            simp only [Except.ok.injEq, Prod.mk.injEq] at h
            rw [← h.2]
            obtain ⟨sc, t, hs, hv, hvna, ha1⟩ := def_var_ok hd
            have ihw := ih f (Nat.lt_succ_self f) _ a1 ow a2 hw
            obtain ⟨sc2, t2, hs2, hloc2, hmem2, ha3⟩ := mark_var_dead_ok hm
            have ha1s : a1.scope =
                { sc with syms := sc.syms ++ [vsym],
                          active_vars := sc.active_vars ++ [vsym] } :: t := by
              rw [ha1]
            obtain ⟨y, hy⟩ := ihw.1 _ _ ha1s
            rw [hy] at hs2
            injection hs2 with e1 e2
            subst e1
            subst e2
            have ha3s : a3.scope =
                { y with cleaned_vars := addSet vsym y.cleaned_vars,
                         active_vars := y.active_vars.erase vsym } :: t := by
              rw [ha3]
            refine ⟨?_, ?_, ?_⟩
            · intro sc0 t0 hsc0
              rw [hs] at hsc0
              injection hsc0 with e3 e4
              subst e3; subst e4
              exact ⟨_, ha3s⟩
            · intro hids
              have hids1 : IdsOk a1 := by
                rw [ha1]
                exact IdsOk_of_eq rfl rfl (IdsOk_gen_sym_id hids)
              have hids2 := ihw.2.1 hids1
              rw [ha3]
              exact IdsOk_of_eq rfl rfl hids2
            · intro hok
              have hok1 : ScopesOk a1.scope := ScopesOk_def_var hd (by exact hok)
              have hok2 := ihw.2.2 hok1
              rw [hy] at hok2
              rw [ha3s]
              exact ScopesOk_kill hok2
  | returnS =>
    simp only [sem_stmt] at h
    by_cases hbl : a.block_nesting_level ≤ 0
    · rw [if_pos hbl] at h; simp at h
    · rw [if_neg hbl] at h
      cases hgc : a.gen_cleanup_all_vars with
      | error e => rw [hgc] at h; simp at h
      | ok p =>
        obtain ⟨cl, a1⟩ := p
        rw [hgc] at h
        simp only [Except.ok.injEq, Prod.mk.injEq] at h
        rw [← h.2]
        obtain ⟨sc, t, res, hs, hclean, hcl⟩ := gen_cleanup_all_vars_ok hgc
        obtain ⟨_, ⟨sc', hsc', _, _, _⟩, hn, hg, _, _, _, _⟩ :=
          cleanupVars_spec _ a res a1 sc t hs hclean
        refine ⟨?_, fun hids => IdsOk_of_eq hg hn hids,
          fun hok => cleanupVars_ScopesOk _ a res a1 hclean hok⟩
        intro sc0 t0 hsc0
        rw [hs] at hsc0
        injection hsc0 with e1 e2
        subst e1; subst e2
        exact ⟨sc', hsc'⟩
  | breakS =>
    simp only [sem_stmt] at h
    by_cases hbl : a.loop_nesting_level ≤ 0
    · rw [if_pos hbl] at h; simp at h
    · rw [if_neg hbl] at h
      simp only [Except.ok.injEq, Prod.mk.injEq] at h
      rw [← h.2]
      exact ⟨fun sc t hsc => ⟨sc, hsc⟩, id, id⟩
  | defVar sym =>
    simp only [sem_stmt, Except.ok.injEq, Prod.mk.injEq] at h
    rw [← h.2]
    exact ⟨fun sc t hsc => ⟨sc, hsc⟩, id, id⟩
  | writeVar sym e =>
    simp only [sem_stmt, Except.ok.injEq, Prod.mk.injEq] at h
    rw [← h.2]
    exact ⟨fun sc t hsc => ⟨sc, hsc⟩, id, id⟩
  | killVar sym =>
    simp only [sem_stmt, Except.ok.injEq, Prod.mk.injEq] at h
    rw [← h.2]
    exact ⟨fun sc t hsc => ⟨sc, hsc⟩, id, id⟩
  | noneStmt => simp [sem_stmt] at h

theorem analyze_program_inv :
    ∀ (fuel : Nat) (stmts : List Stmt) (a : Analyzer) (rs : List Stmt) (a' : Analyzer),
      analyze_program fuel stmts a = .ok (rs, a') →
      (∀ sc t, a.scope = sc :: t → ∃ sc', a'.scope = sc' :: t) ∧
      (IdsOk a → IdsOk a') ∧
      (ScopesOk a.scope → ScopesOk a'.scope) := by
  intro fuel
  induction fuel with
  | zero =>
    intro stmts a rs a' h
    cases stmts with
    | nil =>
      simp only [analyze_program, Except.ok.injEq, Prod.mk.injEq] at h
      rw [← h.2]
      exact ⟨fun sc t hsc => ⟨sc, hsc⟩, id, id⟩
    | cons x rest => simp [analyze_program] at h
  | succ f ihf =>
    intro stmts a rs a' h
    cases stmts with
    | nil =>
      simp only [analyze_program, Except.ok.injEq, Prod.mk.injEq] at h
      rw [← h.2]
      exact ⟨fun sc t hsc => ⟨sc, hsc⟩, id, id⟩
    | cons x rest =>
      simp only [analyze_program] at h
      cases h1 : sem_stmt f x a with
      | error e => rw [h1] at h; simp at h
      | ok p1 =>
        obtain ⟨ox, a1⟩ := p1
        rw [h1] at h
        dsimp only at h
        cases h2 : analyze_program f rest a1 with
        | error e => rw [h2] at h; simp at h
        | ok p2 =>
          obtain ⟨rs2, a2⟩ := p2
          rw [h2] at h
          simp only [Except.ok.injEq, Prod.mk.injEq] at h
          rw [← h.2]
          have ihx := sem_stmt_inv f x a ox a1 h1
          have ihr := ihf rest a1 rs2 a2 h2
          refine ⟨?_, fun hids => ihr.2.1 (ihx.2.1 hids),
            fun hok => ihr.2.2 (ihx.2.2 hok)⟩
          intro sc t hsc
          obtain ⟨sc1, hsc1⟩ := ihx.1 sc t hsc
          exact ihr.1 sc1 t hsc1

/-- The analysis of a statement list always produces a statement list. -/
theorem sem_stmtList_shape :
    ∀ (fuel : Nat) (l : List Stmt) (a : Analyzer) (o : Option Stmt) (a' : Analyzer),
      sem_stmt fuel (.stmtList l) a = .ok (o, a') →
      ∃ rs, o = some (.stmtList rs) := by
  intro fuel l a o a' h
  cases l with
  | nil =>
    simp only [sem_stmt, Except.ok.injEq, Prod.mk.injEq] at h
    exact ⟨[], h.1.symm⟩
  | cons x rest =>
    cases fuel with
    | zero => simp [sem_stmt] at h
    | succ f =>
      simp only [sem_stmt] at h
      cases h1 : sem_stmt f x a with
      | error e => rw [h1] at h; simp at h
      | ok p1 =>
        obtain ⟨ox, a1⟩ := p1
        rw [h1] at h
        dsimp only at h
        cases h2 : sem_stmt f (.stmtList rest) a1 with
        | error e => rw [h2] at h; simp at h
        | ok p2 =>
          obtain ⟨or2, a2⟩ := p2
          rw [h2] at h
          rcases or2 with _ | st2
          · simp at h
          · cases st2 <;> try simp at h
            case stmtList rs =>
              exact ⟨optCons ox rs, h.1.symm⟩

theorem hasBlockDefL_map_killVar :
    ∀ vs : List Symbol, hasBlockDefL (vs.map Stmt.killVar) = false := by
  intro vs
  induction vs with
  | nil => rfl
  | cons v rest ihv =>
    simp only [List.map_cons, hasBlockDefL, hasBlockDef]
    simpa using ihv

/-- No analysis result contains a routine-definition node. -/
theorem sem_no_blockDef :
    ∀ (fuel : Nat) (st : Stmt) (a : Analyzer) (r : Stmt) (a' : Analyzer),
      sem_stmt fuel st a = .ok (some r, a') → hasBlockDef r = false := by
  intro fuel
  induction fuel using Nat.strong_induction_on with
  | _ fuel ih =>
  intro st a r a' h
  cases st with
  | blockDef name body =>
    cases name with
    | identE ident =>
      cases fuel with
      | zero => simp [sem_stmt] at h
      | succ f =>
        simp only [sem_stmt] at h
        cases hbody : sem_stmt f (.stmtList (body ++ [.returnS]))
            ((a.gen_block_sym ident).2.open_block) with
        | error e => rw [hbody] at h; simp at h
        | ok p =>
          obtain ⟨semBody, a3⟩ := p
          rw [hbody] at h
          dsimp only at h
          cases hcb : a3.close_block with
          | error e => rw [hcb] at h; simp at h
          | ok a4 =>
            rw [hcb] at h
            dsimp only at h
            rcases semBody with _ | sb
            · simp at h
            · cases sb <;> simp at h
    | symE sym => simp [sem_stmt] at h
    | number n => simp [sem_stmt] at h
    | readVar e2 => simp [sem_stmt] at h
    | greater l r2 => simp [sem_stmt] at h
    | subE l r2 => simp [sem_stmt] at h
    | unary op e2 => simp [sem_stmt] at h
  | stmtList stmts =>
    cases stmts with
    | nil =>
      simp only [sem_stmt, Except.ok.injEq, Prod.mk.injEq, Option.some.injEq] at h
      rw [← h.1]
      rfl
    | cons x rest =>
      cases fuel with
      | zero => simp [sem_stmt] at h
      | succ f =>
        simp only [sem_stmt] at h
        cases h1 : sem_stmt f x a with
        | error e => rw [h1] at h; simp at h
        | ok p1 =>
          obtain ⟨ox, a1⟩ := p1
          rw [h1] at h
          dsimp only at h
          cases h2 : sem_stmt f (.stmtList rest) a1 with
          | error e => rw [h2] at h; simp at h
          | ok p2 =>
            obtain ⟨or2, a2⟩ := p2
            rw [h2] at h
            rcases or2 with _ | st2
            · simp at h
            · cases st2 <;> try simp at h
              case stmtList rs =>
                obtain ⟨hr, ha⟩ := h
                rw [← hr]
                have hrest : hasBlockDef (.stmtList rs) = false :=
                  ih f (Nat.lt_succ_self f) (.stmtList rest) a1 (.stmtList rs) a2 h2
                simp only [hasBlockDef] at hrest
                cases ox with
                | none =>
                  simp only [optCons, hasBlockDef]
                  exact hrest
                | some stx =>
                  have hx : hasBlockDef stx = false :=
                    ih f (Nat.lt_succ_self f) x a stx a1 h1
                  simp only [optCons, hasBlockDef, hasBlockDefL]
                  rw [hx, hrest]
                  rfl
  | call name =>
    cases name with
    | identE ident =>
      simp only [sem_stmt] at h
      cases hl : lookup_block_by_name ident a.scope with
      | error e => rw [hl] at h; simp at h
      | ok sym =>
        rw [hl] at h
        simp only [Except.ok.injEq, Prod.mk.injEq, Option.some.injEq] at h
        rw [← h.1]
        rfl
    | symE sym =>
      simp only [sem_stmt, Except.ok.injEq, Prod.mk.injEq, Option.some.injEq] at h
      rw [← h.1]
      rfl
    | number n => simp [sem_stmt] at h
    | readVar e2 => simp [sem_stmt] at h
    | greater l r2 => simp [sem_stmt] at h
    | subE l r2 => simp [sem_stmt] at h
    | unary op e2 => simp [sem_stmt] at h
  | command sel =>
    simp only [sem_stmt] at h
    cases hs : a.scope with
    | nil => rw [hs] at h; simp at h
    | cons sc rest =>
      rw [hs] at h
      simp only [Except.ok.injEq, Prod.mk.injEq, Option.some.injEq] at h
      rw [← h.1]
      rfl
  | ifS e bt bf =>
    cases fuel with
    | zero => simp [sem_stmt] at h
    | succ f =>
      simp only [sem_stmt] at h
      cases hsa : a.scope with
      | nil => rw [hsa] at h; simp at h
      | cons sc rest =>
        rw [hsa] at h
        dsimp only at h
        cases hb1 : sem_stmt f bt
            { a with scope := Scope.new_branch sc :: sc :: rest } with
        | error e2 => rw [hb1] at h; simp at h
        | ok p1 =>
          obtain ⟨obt, a1⟩ := p1
          rw [hb1] at h
          dsimp only at h
          cases hsa1 : a1.scope with
          | nil => rw [hsa1] at h; simp at h
          | cons z1 rest1 =>
            rw [hsa1] at h
            dsimp only at h
            cases rest1 with
            | nil => simp at h
            | cons sc2 rest2 =>
              dsimp only at h
              cases hb2 : sem_stmt f bf
                  { a1 with scope := Scope.new_branch sc2 :: sc2 :: rest2 } with
              | error e2 => rw [hb2] at h; simp at h
              | ok p2 =>
                obtain ⟨obf, a3⟩ := p2
                rw [hb2] at h
                dsimp only at h
                cases hsa3 : a3.scope with
                | nil => rw [hsa3] at h; simp at h
                | cons z3 rest3 =>
                  rw [hsa3] at h
                  dsimp only at h
                  simp only [Except.ok.injEq, Prod.mk.injEq, Option.some.injEq] at h
                  rw [← h.1]
                  have hbt : hasBlockDef (obt.getD Stmt.noneStmt) = false := by
                    cases obt with
                    | none => rfl
                    | some stx =>
                      exact ih f (Nat.lt_succ_self f) bt _ stx a1 hb1
                  have hbf : hasBlockDef (obf.getD Stmt.noneStmt) = false := by
                    cases obf with
                    | none => rfl
                    | some stx =>
                      exact ih f (Nat.lt_succ_self f) bf _ stx a3 hb2
                  simp [hasBlockDef, hbt, hbf]
  | loop body =>
    cases fuel with
    | zero => simp [sem_stmt] at h
    | succ f =>
      simp only [sem_stmt] at h
      cases ho : a.open_loop with
      | error e => rw [ho] at h; simp at h
      | ok a1 =>
        rw [ho] at h
        dsimp only at h
        cases hb : sem_stmt f body a1 with
        | error e => rw [hb] at h; simp at h
        | ok p =>
          obtain ⟨ob, a2⟩ := p
          rw [hb] at h
          dsimp only at h
          cases hc : a2.close_loop with
          | error e => rw [hc] at h; simp at h
          | ok a3 =>
            rw [hc] at h
            simp only [Except.ok.injEq, Prod.mk.injEq, Option.some.injEq] at h
            rw [← h.1]
            simp only [hasBlockDef]
            cases ob with
            | none => rfl
            | some stx => exact ih f (Nat.lt_succ_self f) body a1 stx a2 hb
  | whileS e body =>
    cases fuel with
    | zero => simp [sem_stmt] at h
    | succ f =>
      simp only [sem_stmt] at h
      cases ho : a.open_loop with
      | error e2 => rw [ho] at h; simp at h
      | ok a1 =>
        rw [ho] at h
        dsimp only at h
        cases hb : sem_stmt f body a1 with
        | error e2 => rw [hb] at h; simp at h
        | ok p =>
          obtain ⟨ob, a2⟩ := p
          rw [hb] at h
          dsimp only at h
          cases hc : a2.close_loop with
          | error e2 => rw [hc] at h; simp at h
          | ok a3 =>
            rw [hc] at h
            simp only [Except.ok.injEq, Prod.mk.injEq, Option.some.injEq] at h
            rw [← h.1]
            simp only [hasBlockDef]
            cases ob with
            | none => rfl
            | some stx => exact ih f (Nat.lt_succ_self f) body a1 stx a2 hb
  | untilS e body =>
    cases fuel with
    | zero => simp [sem_stmt] at h
    | succ f =>
      simp only [sem_stmt] at h
      cases ho : a.open_loop with
      | error e2 => rw [ho] at h; simp at h
      | ok a1 =>
        rw [ho] at h
        dsimp only at h
        cases hb : sem_stmt f body a1 with
        | error e2 => rw [hb] at h; simp at h
        | ok p =>
          obtain ⟨ob, a2⟩ := p
          rw [hb] at h
          dsimp only at h
          cases hc : a2.close_loop with
          | error e2 => rw [hc] at h; simp at h
          | ok a3 =>
            rw [hc] at h
            simp only [Except.ok.injEq, Prod.mk.injEq, Option.some.injEq] at h
            rw [← h.1]
            have hbody' : hasBlockDef (ob.getD Stmt.noneStmt) = false := by
              cases ob with
              | none => rfl
              | some stx => exact ih f (Nat.lt_succ_self f) body a1 stx a2 hb
            simp [hasBlockDef, hasBlockDefL, hbody']
  | untilRegion e2 body => simp [sem_stmt] at h
  | times num body =>
    cases fuel with
    | zero => simp [sem_stmt] at h
    | succ f =>
      simp only [sem_stmt] at h
      cases hd : a.def_var with
      | error e => rw [hd] at h; simp at h
      | ok p =>
        obtain ⟨vsym, a1⟩ := p
        rw [hd] at h
        dsimp only at h
        cases hw : sem_stmt f
            (.whileS (.greater (.readVar (.symE vsym)) (.number 0))
              (.stmtList (body ++
                [.writeVar vsym (.subE (.readVar (.symE vsym)) (.number 1))]))) a1 with
        | error e => rw [hw] at h; simp at h
        | ok q =>
          obtain ⟨ow, a2⟩ := q
          rw [hw] at h
          dsimp only at h
          cases hm : a2.mark_var_dead vsym with
          | error e => rw [hm] at h; simp at h
          | ok a3 =>
            rw [hm] at h
            simp only [Except.ok.injEq, Prod.mk.injEq, Option.some.injEq] at h
            rw [← h.1]
            have how : hasBlockDef (ow.getD Stmt.noneStmt) = false := by
              cases ow with
              | none => rfl
              | some stx => exact ih f (Nat.lt_succ_self f) _ a1 stx a2 hw
            simp [hasBlockDef, hasBlockDefL, how]
  | returnS =>
    simp only [sem_stmt] at h
    by_cases hbl : a.block_nesting_level ≤ 0
    · rw [if_pos hbl] at h; simp at h
    · rw [if_neg hbl] at h
      cases hgc : a.gen_cleanup_all_vars with
      | error e => rw [hgc] at h; simp at h
      | ok p =>
        obtain ⟨cl, a1⟩ := p
        rw [hgc] at h
        simp only [Except.ok.injEq, Prod.mk.injEq, Option.some.injEq] at h
        rw [← h.1]
        obtain ⟨sc, t, res, hs, hclean, hcl⟩ := gen_cleanup_all_vars_ok hgc
        obtain ⟨hres, _, _, _, _, _, _, _⟩ :=
          cleanupVars_spec _ a res a1 sc t hs hclean
        subst hcl
        subst hres
        simp only [hasBlockDef, hasBlockDefL, hasBlockDefL_map_killVar]
        rfl
  | breakS =>
    simp only [sem_stmt] at h
    by_cases hbl : a.loop_nesting_level ≤ 0
    · rw [if_pos hbl] at h; simp at h
    · rw [if_neg hbl] at h
      simp only [Except.ok.injEq, Prod.mk.injEq, Option.some.injEq] at h
      rw [← h.1]
      rfl
  | defVar sym =>
    simp only [sem_stmt, Except.ok.injEq, Prod.mk.injEq, Option.some.injEq] at h
    rw [← h.1]
    rfl
  | writeVar sym e =>
    simp only [sem_stmt, Except.ok.injEq, Prod.mk.injEq, Option.some.injEq] at h
    rw [← h.1]
    rfl
  | killVar sym =>
    simp only [sem_stmt, Except.ok.injEq, Prod.mk.injEq, Option.some.injEq] at h
    rw [← h.1]
    rfl
  | noneStmt => simp [sem_stmt] at h

theorem lookup_local_block_some {sc : Scope} {lit : String} {sym : Symbol}
    (h : sc.lookup_local_block lit = some sym) :
    sym ∈ sc.syms ∧ sym.kind = SymbolKind.block ∧ sym.literal = lit := by
  unfold Scope.lookup_local_block at h
  have hmem := List.mem_of_find?_eq_some h
  have hpred := List.find?_some h
  simp only [Bool.and_eq_true, beq_iff_eq] at hpred
  exact ⟨List.mem_reverse.mp hmem, hpred.1, hpred.2⟩

theorem lookup_local_block_none {sc : Scope} {lit : String}
    (h : sc.lookup_local_block lit = none) :
    ¬ HasLocalMatch sc.syms lit := by
  unfold Scope.lookup_local_block at h
  rw [List.find?_eq_none] at h
  rintro ⟨s, hs, hkind, hlit⟩
  exact h s (List.mem_reverse.mpr hs) (by simp [hkind, hlit])

theorem lookup_block_ok_char :
    ∀ (chain : List Scope) (lit : String) (sym : Symbol),
      lookup_block_by_name lit chain = .ok sym →
      ∃ pre sc suf, chain = pre ++ sc :: suf ∧
        (∀ sc' ∈ pre, ¬ HasLocalMatch sc'.syms lit) ∧
        sym ∈ sc.syms ∧ sym.kind = SymbolKind.block ∧ sym.literal = lit := by
  intro chain
  induction chain with
  | nil => intro lit sym h; simp [lookup_block_by_name] at h
  | cons sc rest ihc =>
    intro lit sym h
    simp only [lookup_block_by_name] at h
    cases hl : sc.lookup_local_block lit with
    | some s =>
      rw [hl] at h
      simp only [Except.ok.injEq] at h
      subst h
      obtain ⟨hmem, hk, hlit⟩ := lookup_local_block_some hl
      exact ⟨[], sc, rest, rfl, by simp, hmem, hk, hlit⟩
    | none =>
      rw [hl] at h
      dsimp only at h
      obtain ⟨pre, sc2, suf, hchain, hpre, hmem, hk, hlit⟩ := ihc lit sym h
      refine ⟨sc :: pre, sc2, suf, by rw [hchain]; rfl, ?_, hmem, hk, hlit⟩
      intro sc' hsc'
      rcases List.mem_cons.mp hsc' with h1 | h1
      · subst h1
        exact lookup_local_block_none hl
      · exact hpre sc' h1

theorem lookup_block_err_iff :
    ∀ (chain : List Scope) (lit : String),
      isOk (lookup_block_by_name lit chain) = false ↔
        ∀ sc ∈ chain, ¬ HasLocalMatch sc.syms lit := by
  intro chain
  induction chain with
  | nil => intro lit; simp [lookup_block_by_name, isOk]
  | cons sc rest ihc =>
    intro lit
    simp only [lookup_block_by_name]
    cases hl : sc.lookup_local_block lit with
    | some s =>
      dsimp only
      constructor
      · intro h
        simp [isOk] at h
      · intro hall
        exfalso
        obtain ⟨hmem, hk, hlit⟩ := lookup_local_block_some hl
        exact hall sc (List.mem_cons_self sc rest) ⟨s, hmem, hk, hlit⟩
    | none =>
      dsimp only
      constructor
      · intro h sc' hsc'
        rcases List.mem_cons.mp hsc' with h1 | h1
        · subst h1
          exact lookup_local_block_none hl
        · exact (ihc lit).mp h sc' h1
      · intro hall
        exact (ihc lit).mpr (fun sc' h1 => hall sc' (List.mem_cons_of_mem _ h1))

/-! ## Claim theorems -/

/-- C1: analyzing a counted repetition `times num body` yields exactly a
declaration of a fresh anonymous variable, a write initializing it to
`num`, a pre-condition repetition guarded by "variable > 0" whose body is
the analysis of `body` with a decrement of the variable appended at the
end, and finally a kill of the variable; the fresh variable's id was
never handed out before. -/
theorem sem_times_desugar (fuel : Nat) (num : Int) (body : List Stmt)
    (a a' : Analyzer) (r : Option Stmt)
    (h : sem_stmt fuel (.times num body) a = .ok (r, a'))
    (hids : ∀ i ∈ a.gen_ids, i < a.next_sym_id) :
    ∃ (v : Symbol) (a1 aIn : Analyzer) (rs : List Stmt) (aOut : Analyzer) (f₂ : Nat),
      v = ⟨":anonymous:", a.next_sym_id, SymbolKind.var⟩ ∧
      v.id ∉ a.gen_ids ∧
      a.def_var = .ok (v, a1) ∧
      a1.open_loop = .ok aIn ∧
      sem_stmt f₂ (.stmtList (body ++
        [.writeVar v (.subE (.readVar (.symE v)) (.number 1))])) aIn =
        .ok (some (.stmtList rs), aOut) ∧
      r = some (.stmtList
        [.defVar v, .writeVar v (.number num),
         .whileS (.greater (.readVar (.symE v)) (.number 0)) (.stmtList rs),
         .killVar v]) := by
  cases fuel with
  | zero => simp [sem_stmt] at h
  | succ f =>
    simp only [sem_stmt] at h
    cases hd : a.def_var with
    | error e => rw [hd] at h; simp at h
    | ok p =>
      obtain ⟨vsym, a1⟩ := p
      rw [hd] at h
      dsimp only at h
      cases hw : sem_stmt f
          (.whileS (.greater (.readVar (.symE vsym)) (.number 0))
            (.stmtList (body ++
              [.writeVar vsym (.subE (.readVar (.symE vsym)) (.number 1))]))) a1 with
      | error e => rw [hw] at h; simp at h
      | ok q =>
        obtain ⟨ow, a2⟩ := q
        rw [hw] at h
        dsimp only at h
        cases hm : a2.mark_var_dead vsym with
        | error e => rw [hm] at h; simp at h
        | ok a3 =>
          rw [hm] at h
          simp only [Except.ok.injEq, Prod.mk.injEq] at h
          obtain ⟨sc, t, hs, hv, hvna, ha1⟩ := def_var_ok hd
          cases f with
          | zero => simp [sem_stmt] at hw
          | succ f₂ =>
            simp only [sem_stmt] at hw
            cases ho : a1.open_loop with
            | error e => rw [ho] at hw; simp at hw
            | ok aIn =>
              rw [ho] at hw
              dsimp only at hw
              cases hb : sem_stmt f₂
                  (.stmtList (body ++
                    [.writeVar vsym (.subE (.readVar (.symE vsym)) (.number 1))]))
                  aIn with
              | error e => rw [hb] at hw; simp at hw
              | ok qb =>
                obtain ⟨ob, aOut⟩ := qb
                rw [hb] at hw
                dsimp only at hw
                cases hcl : aOut.close_loop with
                | error e => rw [hcl] at hw; simp at hw
                | ok aC =>
                  rw [hcl] at hw
                  simp only [Except.ok.injEq, Prod.mk.injEq] at hw
                  obtain ⟨how, haC⟩ := hw
                  obtain ⟨rs, hrs⟩ := sem_stmtList_shape f₂ _ aIn ob aOut hb
                  subst hrs
                  refine ⟨vsym, a1, aIn, rs, aOut, f₂, hv, ?_, rfl, ho, hb, ?_⟩
                  · intro hmem2
                    rw [hv] at hmem2
                    exact absurd (hids _ hmem2) (lt_irrefl _)
                  · rw [← h.1, ← how]
                    rfl

/-- C2: analyzing a post-condition repetition `untilS e body` analyzes
the guard once and returns a conditional on the analyzed guard whose
true-branch is an empty statement list and whose false-branch is a
tagged until-region wrapping a pre-condition repetition guarded by the
negation of the same analyzed guard, with the analyzed body. -/
theorem sem_until_desugar (fuel : Nat) (e : Expression) (body : Stmt)
    (a a' : Analyzer) (r : Option Stmt)
    (h : sem_stmt fuel (.untilS e body) a = .ok (r, a')) :
    ∃ f₁ a1 ob a2,
      fuel = f₁ + 1 ∧
      a.open_loop = .ok a1 ∧
      sem_stmt f₁ body a1 = .ok (ob, a2) ∧
      a2.close_loop = .ok a' ∧
      r = some (.ifS (sem_expr e) (.stmtList [])
            (.stmtList [.untilRegion (sem_expr e)
              (.whileS (.unary notToken (sem_expr e)) (ob.getD .noneStmt))])) := by
  cases fuel with
  | zero => simp [sem_stmt] at h
  | succ f =>
    simp only [sem_stmt] at h
    cases ho : a.open_loop with
    | error e2 => rw [ho] at h; simp at h
    | ok a1 =>
      rw [ho] at h
      dsimp only at h
      cases hb : sem_stmt f body a1 with
      | error e2 => rw [hb] at h; simp at h
      | ok p =>
        obtain ⟨ob, a2⟩ := p
        rw [hb] at h
        dsimp only at h
        cases hc : a2.close_loop with
        | error e2 => rw [hc] at h; simp at h
        | ok a3 =>
          rw [hc] at h
          simp only [Except.ok.injEq, Prod.mk.injEq] at h
          exact ⟨f, a1, ob, a2, rfl, rfl, hb, by rw [← h.2]; exact hc, h.1.symm⟩

/-- C3: a legal early return is rewritten to a kill of every active
variable of the current scope, most recently activated first, followed
by the return; afterwards the current scope has no active variables. -/
theorem sem_return_cleanup (fuel : Nat) (a a' : Analyzer) (r : Option Stmt)
    (sc : Scope) (t : List Scope)
    (hsc : a.scope = sc :: t) (hpos : 0 < a.block_nesting_level)
    (h : sem_stmt fuel Stmt.returnS a = .ok (r, a')) :
    r = some (.stmtList
      [.stmtList (sc.active_vars.reverse.map Stmt.killVar), .returnS]) ∧
    ∃ sc', a'.scope = sc' :: t ∧ sc'.active_vars = [] := by
  simp only [sem_stmt] at h
  rw [if_neg (by omega : ¬ a.block_nesting_level ≤ 0)] at h
  cases hgc : a.gen_cleanup_all_vars with
  | error e => rw [hgc] at h; simp at h
  | ok p =>
    obtain ⟨cl, a1⟩ := p
    rw [hgc] at h
    simp only [Except.ok.injEq, Prod.mk.injEq] at h
    obtain ⟨hr, ha⟩ := h
    obtain ⟨sc0, t0, res, hs0, hclean, hcl⟩ := gen_cleanup_all_vars_ok hgc
    rw [hsc] at hs0
    injection hs0 with e1 e2
    subst e1
    subst e2
    obtain ⟨hres, ⟨sc', hsc', hsyms, hblk, hlen⟩, _, _, _, _, _, _⟩ :=
      cleanupVars_spec _ a res a1 sc t hsc hclean
    subst hres
    constructor
    · rw [← hr, hcl]
    · refine ⟨sc', by rw [← ha]; exact hsc', ?_⟩
      rw [List.length_reverse] at hlen
      have hz : sc'.active_vars.length = 0 := by omega
      exact List.eq_nil_of_length_eq_zero hz

/-- C7: each arm of a conditional is analyzed in a fresh branch scope
that copies the parent scope's active-variable list; both branch scopes
are discarded, and the parent scope (symbols, active variables, cleaned
variables) is exactly as before. -/
theorem sem_if_branch_isolation (fuel : Nat) (e : Expression) (bt bf : Stmt)
    (a a' : Analyzer) (r : Option Stmt) (sc : Scope) (t : List Scope)
    (hsc : a.scope = sc :: t)
    (h : sem_stmt fuel (.ifS e bt bf) a = .ok (r, a')) :
    a'.scope = a.scope ∧
    (Scope.new_branch sc).active_vars = sc.active_vars ∧
    (Scope.new_branch sc).syms = [] ∧
    (Scope.new_branch sc).cleaned_vars = [] ∧
    ∃ f₁ obt a1 obf a3,
      fuel = f₁ + 1 ∧
      sem_stmt f₁ bt { a with scope := Scope.new_branch sc :: sc :: t } =
        .ok (obt, a1) ∧
      sem_stmt f₁ bf { a1 with scope := Scope.new_branch sc :: sc :: t } =
        .ok (obf, a3) ∧
      r = some (.ifS (sem_expr e) (obt.getD .noneStmt) (obf.getD .noneStmt)) ∧
      a' = { a3 with scope := sc :: t } := by
  cases fuel with
  | zero => simp [sem_stmt] at h
  | succ f =>
    simp only [sem_stmt] at h
    rw [hsc] at h
    dsimp only at h
    cases hb1 : sem_stmt f bt
        { a with scope := Scope.new_branch sc :: sc :: t } with
    | error e2 => rw [hb1] at h; simp at h
    | ok p1 =>
      obtain ⟨obt, a1⟩ := p1
      rw [hb1] at h
      dsimp only at h
      obtain ⟨x1, hx1⟩ := (sem_stmt_inv f bt _ obt a1 hb1).1
        (Scope.new_branch sc) (sc :: t) rfl
      rw [hx1] at h
      dsimp only at h
      cases hb2 : sem_stmt f bf
          { a1 with scope := Scope.new_branch sc :: sc :: t } with
      | error e2 => rw [hb2] at h; simp at h
      | ok p2 =>
        obtain ⟨obf, a3⟩ := p2
        rw [hb2] at h
        dsimp only at h
        obtain ⟨x3, hx3⟩ := (sem_stmt_inv f bf _ obf a3 hb2).1
          (Scope.new_branch sc) (sc :: t) rfl
        rw [hx3] at h
        dsimp only at h
        simp only [Except.ok.injEq, Prod.mk.injEq] at h
        refine ⟨by rw [← h.2, hsc], rfl, rfl, rfl,
          f, obt, a1, obf, a3, rfl, hb1, hb2, h.1.symm, h.2.symm⟩

/-! ### Concrete inputs for the witnesses -/

def anonVar0 : Symbol := ⟨":anonymous:", 0, SymbolKind.var⟩

def timesResult : Option Stmt :=
  some (.stmtList
    [.defVar anonVar0, .writeVar anonVar0 (.number 3),
     .whileS (.greater (.readVar (.symE anonVar0)) (.number 0))
       (.stmtList
         [.writeVar anonVar0 (.subE (.readVar (.symE anonVar0)) (.number 1))]),
     .killVar anonVar0])

def timesAfter : Analyzer :=
  { scope := [{ syms := [anonVar0], unique_player_selectors := [],
                active_vars := [], cleaned_vars := [anonVar0], is_block := true }],
    next_sym_id := 1, block_defs := [], block_nesting_level := 0,
    loop_nesting_level := 0, loop_nesting_stack := [], gen_ids := [0] }

theorem sem_times_desugar_witness :
    ∃ (v : Symbol) (a1 aIn : Analyzer) (rs : List Stmt) (aOut : Analyzer) (f₂ : Nat),
      v = ⟨":anonymous:", initAnalyzer.next_sym_id, SymbolKind.var⟩ ∧
      v.id ∉ initAnalyzer.gen_ids ∧
      initAnalyzer.def_var = .ok (v, a1) ∧
      a1.open_loop = .ok aIn ∧
      sem_stmt f₂ (.stmtList (([] : List Stmt) ++
        [.writeVar v (.subE (.readVar (.symE v)) (.number 1))])) aIn =
        .ok (some (.stmtList rs), aOut) ∧
      timesResult = some (.stmtList
        [.defVar v, .writeVar v (.number 3),
         .whileS (.greater (.readVar (.symE v)) (.number 0)) (.stmtList rs),
         .killVar v]) :=
  sem_times_desugar 3 3 [] initAnalyzer timesAfter timesResult rfl
    (by intro i hi; simp [initAnalyzer] at hi)

def untilResult : Option Stmt :=
  some (.ifS (.identE "g") (.stmtList [])
    (.stmtList [.untilRegion (.identE "g")
      (.whileS (.unary notToken (.identE "g")) (.stmtList []))]))

theorem sem_until_desugar_witness :
    ∃ f₁ a1 ob a2,
      (2 : Nat) = f₁ + 1 ∧
      initAnalyzer.open_loop = .ok a1 ∧
      sem_stmt f₁ (.stmtList []) a1 = .ok (ob, a2) ∧
      a2.close_loop = .ok initAnalyzer ∧
      untilResult = some (.ifS (sem_expr (.identE "g")) (.stmtList [])
        (.stmtList [.untilRegion (sem_expr (.identE "g"))
          (.whileS (.unary notToken (sem_expr (.identE "g")))
            (ob.getD .noneStmt))])) :=
  sem_until_desugar 2 (.identE "g") (.stmtList []) initAnalyzer initAnalyzer
    untilResult rfl

def symX : Symbol := ⟨":x:", 10, SymbolKind.var⟩
def symY : Symbol := ⟨":y:", 11, SymbolKind.var⟩
def symZ : Symbol := ⟨":z:", 12, SymbolKind.var⟩

def retScope : Scope :=
  { syms := [symX, symY, symZ], unique_player_selectors := [],
    active_vars := [symX, symY, symZ], cleaned_vars := [], is_block := true }

def retA : Analyzer :=
  { initAnalyzer with block_nesting_level := 1, scope := [retScope] }

def retScopeAfter : Scope :=
  { syms := [symX, symY, symZ], unique_player_selectors := [],
    active_vars := [], cleaned_vars := [symZ, symY, symX], is_block := true }

def retAfter : Analyzer :=
  { initAnalyzer with block_nesting_level := 1, scope := [retScopeAfter] }

def retResult : Option Stmt :=
  some (.stmtList
    [.stmtList [.killVar symZ, .killVar symY, .killVar symX], .returnS])

theorem sem_return_cleanup_witness :
    retResult = some (.stmtList
      [.stmtList (retScope.active_vars.reverse.map Stmt.killVar), .returnS]) ∧
    ∃ sc', retAfter.scope = sc' :: ([] : List Scope) ∧ sc'.active_vars = [] :=
  sem_return_cleanup 1 retA retAfter retResult retScope [] rfl (by decide) rfl

def ifResult : Option Stmt :=
  some (.ifS (.identE "c") (.stmtList []) (.stmtList []))

theorem sem_if_branch_isolation_witness :
    initAnalyzer.scope = initAnalyzer.scope ∧
    (Scope.new_branch (Scope.newScope true)).active_vars =
      (Scope.newScope true).active_vars ∧
    (Scope.new_branch (Scope.newScope true)).syms = [] ∧
    (Scope.new_branch (Scope.newScope true)).cleaned_vars = [] ∧
    ∃ f₁ obt a1 obf a3,
      (2 : Nat) = f₁ + 1 ∧
      sem_stmt f₁ (.stmtList [])
        { initAnalyzer with scope :=
            Scope.new_branch (Scope.newScope true) :: Scope.newScope true :: [] } =
        .ok (obt, a1) ∧
      sem_stmt f₁ (.stmtList [])
        { a1 with scope :=
            Scope.new_branch (Scope.newScope true) :: Scope.newScope true :: [] } =
        .ok (obf, a3) ∧
      ifResult = some (.ifS (sem_expr (.identE "c"))
        (obt.getD .noneStmt) (obf.getD .noneStmt)) ∧
      initAnalyzer = { a3 with scope := Scope.newScope true :: [] } :=
  sem_if_branch_isolation 2 (.identE "c") (.stmtList []) (.stmtList [])
    initAnalyzer initAnalyzer ifResult (Scope.newScope true) [] rfl rfl

/-- C4: an early return raises the analysis error exactly when the
routine-depth counter is zero (in a well-formed state it otherwise
succeeds), and an early break raises it exactly when the repetition
depth is zero; opening a routine body pushes the repetition depth and
resets it to zero, closing restores it, so a break directly inside a
routine body fails even under an enclosing repetition construct. -/
theorem return_break_static_errors :
    (∀ (fuel : Nat) (a : Analyzer) (sc : Scope) (t : List Scope),
      a.scope = sc :: t → ScopesOk a.scope → 0 ≤ a.block_nesting_level →
      (isOk (sem_stmt fuel Stmt.returnS a) = false ↔
        a.block_nesting_level = 0)) ∧
    (∀ (fuel : Nat) (a : Analyzer), 0 ≤ a.loop_nesting_level →
      (isOk (sem_stmt fuel Stmt.breakS a) = false ↔
        a.loop_nesting_level = 0)) ∧
    (∀ a : Analyzer,
      a.open_block.loop_nesting_level = 0 ∧
      a.open_block.loop_nesting_stack =
        a.loop_nesting_level :: a.loop_nesting_stack ∧
      a.open_block.block_nesting_level = a.block_nesting_level + 1 ∧
      a.open_block.close_block = .ok a) ∧
    (∀ (fuel : Nat) (a : Analyzer) (nm : String),
      isOk (sem_stmt fuel (.blockDef (.identE nm) [Stmt.breakS]) a) = false) := by
  refine ⟨?_, ?_, ?_, ?_⟩
  · intro fuel a sc t hsc hok hge
    constructor
    · intro herr
      by_contra hne
      obtain ⟨res, a1, hres⟩ :=
        gen_cleanup_all_vars_total hsc (hsc ▸ hok)
      have hok' : sem_stmt fuel Stmt.returnS a =
          .ok (some (.stmtList [res, .returnS]), a1) := by
        simp only [sem_stmt]
        rw [if_neg (by omega : ¬ a.block_nesting_level ≤ 0), hres]
      rw [hok'] at herr
      simp [isOk] at herr
    · intro h0
      simp only [sem_stmt]
      rw [if_pos (by omega : a.block_nesting_level ≤ 0)]
      rfl
  · intro fuel a hge
    constructor
    · intro herr
      by_contra hne
      simp only [sem_stmt] at herr
      rw [if_neg (by omega : ¬ a.loop_nesting_level ≤ 0)] at herr
      simp [isOk] at herr
    · intro h0
      simp only [sem_stmt]
      rw [if_pos (by omega : a.loop_nesting_level ≤ 0)]
      rfl
  · intro a
    refine ⟨rfl, rfl, rfl, ?_⟩
    have hstep : a.open_block.close_block =
        .ok { a with block_nesting_level := a.block_nesting_level + 1 - 1 } := rfl
    rw [hstep]
    have h2 : a.block_nesting_level + 1 - 1 = a.block_nesting_level := by omega
    rw [h2]
  · intro fuel a nm
    have hbrk : ∀ (g : Nat) (A : Analyzer), A.loop_nesting_level = 0 →
        sem_stmt g Stmt.breakS A = .error "Break used outside of loop scope" := by
      intro g A h0
      simp only [sem_stmt]
      rw [if_pos (by rw [h0])]
    cases fuel with
    | zero => rfl
    | succ f =>
      simp only [sem_stmt, List.cons_append, List.nil_append]
      cases f with
      | zero => rfl
      | succ f₂ =>
        have hinner : sem_stmt (f₂ + 1)
            (Stmt.stmtList [Stmt.breakS, Stmt.returnS])
            ((a.gen_block_sym nm).2.open_block) =
            .error "Break used outside of loop scope" := by
          have hlvl : (a.gen_block_sym nm).2.open_block.loop_nesting_level =
              (0 : Int) := rfl
          simp only [sem_stmt]
          rw [hlvl]
          simp
        rw [hinner]
        rfl

theorem return_break_static_errors_witness :
    (isOk (sem_stmt 1 Stmt.returnS initAnalyzer) = false ↔
      initAnalyzer.block_nesting_level = 0) ∧
    (isOk (sem_stmt 1 Stmt.breakS initAnalyzer) = false ↔
      initAnalyzer.loop_nesting_level = 0) ∧
    isOk (sem_stmt 5 (.blockDef (.identE "f") [Stmt.breakS])
      { initAnalyzer with loop_nesting_level := 7 }) = false :=
  ⟨return_break_static_errors.1 1 initAnalyzer (Scope.newScope true) [] rfl
      (by simp [initAnalyzer, ScopesOk, Scope.newScope]) (by decide),
   return_break_static_errors.2.1 1 initAnalyzer (by decide),
   return_break_static_errors.2.2.2 5 { initAnalyzer with loop_nesting_level := 7 } "f"⟩

/-- C5: a call with a plain-identifier target resolves through the scope
chain innermost-to-outermost to a routine (block-kind) symbol with that
literal declared in the innermost scope holding one; scopes closer to
the call that lack a match are skipped, and resolution errors exactly
when no scope in the chain holds a matching routine symbol. -/
theorem call_resolution :
    (∀ (fuel : Nat) (lit : String) (a : Analyzer) (r : Option Stmt) (a' : Analyzer),
      sem_stmt fuel (.call (.identE lit)) a = .ok (r, a') →
      a' = a ∧ ∃ sym, lookup_block_by_name lit a.scope = .ok sym ∧
        r = some (.call (.symE sym))) ∧
    (∀ (chain : List Scope) (lit : String) (sym : Symbol),
      lookup_block_by_name lit chain = .ok sym →
      ∃ pre sc suf, chain = pre ++ sc :: suf ∧
        (∀ sc' ∈ pre, ¬ HasLocalMatch sc'.syms lit) ∧
        sym ∈ sc.syms ∧ sym.kind = SymbolKind.block ∧ sym.literal = lit) ∧
    (∀ (chain : List Scope) (lit : String),
      isOk (lookup_block_by_name lit chain) = false ↔
        ∀ sc ∈ chain, ¬ HasLocalMatch sc.syms lit) := by
  refine ⟨?_, lookup_block_ok_char, lookup_block_err_iff⟩
  intro fuel lit a r a' h
  simp only [sem_stmt] at h
  cases hl : lookup_block_by_name lit a.scope with
  | error e => rw [hl] at h; simp at h
  | ok sym =>
    rw [hl] at h
    simp only [Except.ok.injEq, Prod.mk.injEq] at h
    exact ⟨h.2.symm, sym, rfl, h.1.symm⟩

def symInnerF : Symbol := ⟨"f", 1, SymbolKind.block⟩
def symOuterF : Symbol := ⟨"f", 0, SymbolKind.block⟩

def innerScopeF : Scope :=
  { syms := [symInnerF], unique_player_selectors := [], active_vars := [],
    cleaned_vars := [], is_block := false }

def outerScopeF : Scope :=
  { syms := [symOuterF], unique_player_selectors := [], active_vars := [],
    cleaned_vars := [], is_block := true }

def callA : Analyzer :=
  { initAnalyzer with scope := [innerScopeF, outerScopeF] }

theorem call_resolution_witness :
    callA = callA ∧ ∃ sym, lookup_block_by_name "f" callA.scope = .ok sym ∧
      (some (.call (.symE symInnerF)) : Option Stmt) =
        some (.call (.symE sym)) :=
  call_resolution.1 1 "f" callA (some (.call (.symE symInnerF))) callA rfl

def siblingBranch : Scope :=
  { syms := [], unique_player_selectors := [], active_vars := [symX],
    cleaned_vars := [], is_block := false }

def siblingParent : Scope :=
  { syms := [], unique_player_selectors := [], active_vars := [],
    cleaned_vars := [], is_block := true }

/-- C6: activating an already active variable errors, exactly then;
killing errors exactly when the variable is not block-local from the
current scope or not active; in particular a kill from a sibling branch
scope whose lexical path does not declare the variable fails. -/
theorem activate_kill_errors :
    (∀ (sym : Symbol) (sc : Scope) (t : List Scope),
      (isOk (activate_var sym (sc :: t)) = false ↔ sym ∈ sc.active_vars) ∧
      (isOk (kill_var sym (sc :: t)) = false ↔
        (is_block_local_var sym (sc :: t) = false ∨ sym ∉ sc.active_vars))) ∧
    isOk (kill_var symX [siblingBranch, siblingParent]) = false := by
  refine ⟨fun sym sc t =>
    ⟨activate_var_err_iff sym sc t, kill_var_err_iff sym sc t⟩, ?_⟩
  rfl

/-- C8: within one analysis run the trace of generated symbol ids is
strictly increasing in generation order, hence all ids are pairwise
distinct, regardless of how many scopes, branches or desugared
constructs are created. -/
theorem sym_ids_strictly_increasing :
    IdsOk initAnalyzer ∧
    (∀ (fuel : Nat) (st : Stmt) (a : Analyzer) (r : Option Stmt) (a' : Analyzer),
      IdsOk a → sem_stmt fuel st a = .ok (r, a') →
      a'.gen_ids.Pairwise (· < ·) ∧ a'.gen_ids.Nodup) ∧
    (∀ (fuel : Nat) (stmts rs : List Stmt) (a' : Analyzer),
      analyze_program fuel stmts initAnalyzer = .ok (rs, a') →
      a'.gen_ids.Pairwise (· < ·) ∧ a'.gen_ids.Nodup) := by
  have hinit : IdsOk initAnalyzer :=
    ⟨List.Pairwise.nil, by intro i hi; simp [initAnalyzer] at hi⟩
  have hpd : ∀ l : List Nat, l.Pairwise (· < ·) → l.Nodup :=
    fun l hp => hp.imp (fun hlt => Nat.ne_of_lt hlt)
  refine ⟨hinit, ?_, ?_⟩
  · intro fuel st a r a' hids h
    have hids' := (sem_stmt_inv fuel st a r a' h).2.1 hids
    exact ⟨hids'.1, hpd _ hids'.1⟩
  · intro fuel stmts rs a' h
    have hids' := (analyze_program_inv fuel stmts initAnalyzer rs a' h).2.1 hinit
    exact ⟨hids'.1, hpd _ hids'.1⟩

def symFooBlock : Symbol := ⟨"f", 0, SymbolKind.block⟩

def progAfter : Analyzer :=
  { scope := [{ syms := [symFooBlock], unique_player_selectors := [],
                active_vars := [], cleaned_vars := [], is_block := true }],
    next_sym_id := 1,
    block_defs := [.blockDef (.symE symFooBlock)
      [.stmtList [.stmtList [], .returnS]]],
    block_nesting_level := 0, loop_nesting_level := 0,
    loop_nesting_stack := [], gen_ids := [0] }

theorem sym_ids_strictly_increasing_witness :
    progAfter.gen_ids.Pairwise (· < ·) ∧ progAfter.gen_ids.Nodup :=
  sym_ids_strictly_increasing.2.2 5
    [.blockDef (.identE "f") [], .call (.identE "f")]
    [.call (.symE symFooBlock)] progAfter rfl

/-- C9: a routine definition with a plain-identifier name is elided
from the rewritten sequence (`none`) and appended to the collected
routine list with its name resolved to the freshly generated symbol and
an implicit return appended to its body before analysis; no analysis
result contains a routine-definition node; a statement list is
rewritten child by child in order, dropping exactly the elided
children. -/
theorem blockdef_hoisting :
    (∀ (fuel : Nat) (nm : String) (body : List Stmt) (a : Analyzer)
        (r : Option Stmt) (a' : Analyzer),
      sem_stmt fuel (.blockDef (.identE nm) body) a = .ok (r, a') →
      r = none ∧
      ∃ f₁ rs a3 a4,
        fuel = f₁ + 1 ∧
        sem_stmt f₁ (.stmtList (body ++ [.returnS]))
          ((a.gen_block_sym nm).2.open_block) = .ok (some (.stmtList rs), a3) ∧
        a3.close_block = .ok a4 ∧
        (a.gen_block_sym nm).1 = ⟨nm, a.next_sym_id, SymbolKind.block⟩ ∧
        a' = { a4 with block_defs := a4.block_defs ++
          [Stmt.blockDef (.symE ⟨nm, a.next_sym_id, SymbolKind.block⟩) rs] }) ∧
    (∀ (fuel : Nat) (st : Stmt) (a : Analyzer) (r : Stmt) (a' : Analyzer),
      sem_stmt fuel st a = .ok (some r, a') → hasBlockDef r = false) ∧
    (∀ (f : Nat) (x : Stmt) (rest : List Stmt) (a : Analyzer)
        (r : Option Stmt) (a' : Analyzer),
      sem_stmt (f + 1) (.stmtList (x :: rest)) a = .ok (r, a') →
      ∃ ox a1 rs2,
        sem_stmt f x a = .ok (ox, a1) ∧
        sem_stmt f (.stmtList rest) a1 = .ok (some (.stmtList rs2), a') ∧
        r = some (.stmtList (optCons ox rs2))) := by
  refine ⟨?_, sem_no_blockDef, ?_⟩
  · intro fuel nm body a r a' h
    cases fuel with
    | zero => simp [sem_stmt] at h
    | succ f =>
      simp only [sem_stmt] at h
      cases hbody : sem_stmt f (.stmtList (body ++ [.returnS]))
          ((a.gen_block_sym nm).2.open_block) with
      | error e => rw [hbody] at h; simp at h
      | ok p =>
        obtain ⟨semBody, a3⟩ := p
        rw [hbody] at h
        dsimp only at h
        cases hcb : a3.close_block with
        | error e => rw [hcb] at h; simp at h
        | ok a4 =>
          rw [hcb] at h
          dsimp only at h
          obtain ⟨rs, hrs⟩ := sem_stmtList_shape f _ _ semBody a3 hbody
          subst hrs
          dsimp only at h
          simp only [Except.ok.injEq, Prod.mk.injEq] at h
          refine ⟨h.1.symm, f, rs, a3, a4, rfl, hbody, hcb, rfl, ?_⟩
          exact h.2.symm
  · intro f x rest a r a' h
    simp only [sem_stmt] at h
    cases h1 : sem_stmt f x a with
    | error e => rw [h1] at h; simp at h
    | ok p1 =>
      obtain ⟨ox, a1⟩ := p1
      rw [h1] at h
      dsimp only at h
      cases h2 : sem_stmt f (.stmtList rest) a1 with
      | error e => rw [h2] at h; simp at h
      | ok p2 =>
        obtain ⟨or2, a2⟩ := p2
        rw [h2] at h
        rcases or2 with _ | st2
        · simp at h
        · cases st2 <;> try simp at h
          case stmtList rs2 =>
            obtain ⟨hr, ha⟩ := h
            exact ⟨ox, a1, rs2, rfl, by rw [← ha]; exact h2, hr.symm⟩

def blockAfter : Analyzer :=
  { scope := [{ syms := [symFooBlock], unique_player_selectors := [],
                active_vars := [], cleaned_vars := [], is_block := true }],
    next_sym_id := 1,
    block_defs := [.blockDef (.symE symFooBlock)
      [.stmtList [.stmtList [], .returnS]]],
    block_nesting_level := 0, loop_nesting_level := 0,
    loop_nesting_stack := [], gen_ids := [0] }

theorem blockdef_hoisting_witness :
    (none : Option Stmt) = none ∧
    ∃ f₁ rs a3 a4,
      (5 : Nat) = f₁ + 1 ∧
      sem_stmt f₁ (.stmtList (([] : List Stmt) ++ [.returnS]))
        ((initAnalyzer.gen_block_sym "f").2.open_block) =
        .ok (some (.stmtList rs), a3) ∧
      a3.close_block = .ok a4 ∧
      (initAnalyzer.gen_block_sym "f").1 =
        ⟨"f", initAnalyzer.next_sym_id, SymbolKind.block⟩ ∧
      blockAfter = { a4 with block_defs := a4.block_defs ++
        [Stmt.blockDef (.symE ⟨"f", initAnalyzer.next_sym_id,
          SymbolKind.block⟩) rs] } :=
  blockdef_hoisting.1 5 "f" [] initAnalyzer none blockAfter rfl

/-- C10: every reachable scope chain keeps each active variable
block-local and duplicate-free (`ScopesOk`): the invariant holds
initially, is preserved by every analysis step, and under it the
early-return cleanup (`gen_cleanup_all_vars`) cannot fail. -/
theorem cleanup_never_fails :
    ScopesOk initAnalyzer.scope ∧
    (∀ (fuel : Nat) (st : Stmt) (a : Analyzer) (r : Option Stmt) (a' : Analyzer),
      ScopesOk a.scope → sem_stmt fuel st a = .ok (r, a') →
      ScopesOk a'.scope) ∧
    (∀ (a : Analyzer) (sc : Scope) (t : List Scope),
      a.scope = sc :: t → ScopesOk a.scope →
      ∃ res a', a.gen_cleanup_all_vars = .ok (res, a')) := by
  refine ⟨?_, ?_, ?_⟩
  · simp [initAnalyzer, ScopesOk, Scope.newScope]
  · intro fuel st a r a' hok h
    exact (sem_stmt_inv fuel st a r a' h).2.2 hok
  · intro a sc t hsc hok
    exact gen_cleanup_all_vars_total hsc (hsc ▸ hok)

theorem cleanup_never_fails_witness :
    ∃ res a', retA.gen_cleanup_all_vars = .ok (res, a') :=
  cleanup_never_fails.2.2 retA retScope [] rfl
    (by simp [retA, retScope, ScopesOk, initAnalyzer, is_block_local_var,
      symX, symY, symZ])

end Deimos
